import Mathlib

/-!
# WhisperUploader: a shallow embedding of `whisper_uploader.c`

The component buffers 16-bit PCM samples, frames them as a RIFF/WAVE file in
memory, posts the file over HTTP and publishes the transcript found in the
reply.

Conventions of the embedding

* a byte is a `Nat` below 256; `std::vector<uint8_t>` is a `List Nat`;
* `std::string` is a `List Char` (one `Char` per `char`);
* fixed-width integers are `Nat`/`Int` reduced explicitly modulo `2 ^ w`;
  `size_t` is the 32-bit unsigned type of the ESP32 target, and signed
  arithmetic on `int` wraps;
* the target is little-endian, so `memcpy` from an integer object and
  `reinterpret_cast<const uint8_t *>` expose the least significant byte first;
* every call into `esp_http_client` is recorded, in order, in a trace;
  `ESP_ERROR_CHECK` aborts the firmware when its argument is not `ESP_OK`.
-/

namespace Whisper

/-! ## Machine integers and raw memory -/

/-- Number of values of the 32-bit `size_t` / `uint32_t` types. -/
def SIZE_MOD : Nat := 4294967296

/-- The constant `std::string::npos`, the largest `size_t`. -/
def npos : Nat := 4294967295

/-- Subtraction `a - b` of two `size_t` values, which wraps below zero. -/
def size_sub (a b : Nat) : Nat := (a + SIZE_MOD - b % SIZE_MOD) % SIZE_MOD

/-- Conversion of a non-negative quantity to `uint32_t`. -/
def to_u32 (n : Nat) : Nat := n % 4294967296

/-- Conversion of a (signed) `int` expression to `uint32_t`. -/
def int_to_u32 (i : Int) : Nat := (i % 4294967296).toNat

/-- Conversion of a (signed) `int` expression to `uint16_t`. -/
def int_to_u16 (i : Int) : Nat := (i % 65536).toNat

/-- Object representation of a `uint16_t` on the little-endian target. -/
def le16 (v : Nat) : List Nat := [v % 256, v / 256 % 256]

/-- Object representation of a `uint32_t` on the little-endian target. -/
def le32 (v : Nat) : List Nat :=
  [v % 256, v / 256 % 256, v / 65536 % 256, v / 16777216 % 256]

/-- The bytes of a C string literal (without the terminating NUL). -/
def cstr (s : String) : List Nat := s.toList.map Char.toNat

/-- The call `memcpy(dst + off, src, n)`: overwrite `n` bytes of `dst` starting at
offset `off` with the first `n` bytes of `src`. -/
def memcpy (dst : List Nat) (off : Nat) (src : List Nat) (n : Nat) : List Nat :=
  dst.take off ++ src.take n ++ dst.drop (off + n)

/-- The call `v.insert(v.begin() + pos, first, last)` of `std::vector`, with `xs` the
range `[first, last)`. -/
def vec_insert (v : List Nat) (pos : Nat) (xs : List Nat) : List Nat :=
  v.take pos ++ xs ++ v.drop pos

/-- Object representation of one `int16_t` sample (two's complement, little-endian). -/
def int16_bytes (s : Int) : List Nat := le16 (int_to_u16 s)

/-- The memory occupied by an `int16_t` array, seen through a `const uint8_t *`. -/
def sample_bytes : List Int → List Nat
  | [] => []
  | s :: rest => int16_bytes s ++ sample_bytes rest

/-! ## State of the component -/

/-- The `text_sensor::TextSensor` sink: the values handed to `publish_state`, oldest
first. -/
structure TextSensor where
  states : List (List Char)
  deriving DecidableEq, Repr

/-- The method `publish_state` of the sink. -/
def TextSensor.publish_state (t : TextSensor) (text : List Char) : TextSensor :=
  { t with states := t.states ++ [text] }

/-- The fields of `class WhisperUploader`. `result_sensor_` is a pointer: `none` is
the null pointer. -/
structure WhisperUploader where
  sample_rate_ : Int
  host_ : List Char
  port_ : Nat
  path_ : List Char
  token_ : List Char
  enabled_ : Bool
  buffer_ : List Nat
  result_sensor_ : Option TextSensor
  deriving DecidableEq, Repr

/-- Bytes reserved for the sample buffer by the constructor. -/
def RESERVED_BYTES : Nat := 70 * 1024

/-- The constructor: stores the configuration, allocates the text sensor and reserves
`RESERVED_BYTES` of capacity (capacity is not part of the observable contents);
`enabled_` takes its default member initialiser `false`. -/
def WhisperUploader.new (sample_rate : Int) (host : List Char) (port : Nat)
    (path : List Char) (bearer_token : List Char) : WhisperUploader :=
  { sample_rate_ := sample_rate
    host_ := host
    port_ := port
    path_ := path
    token_ := bearer_token
    enabled_ := false
    buffer_ := []
    result_sensor_ := some { states := [] } }

/-- The method `start()`. -/
def WhisperUploader.start (u : WhisperUploader) : WhisperUploader :=
  { { u with enabled_ := true } with buffer_ := [] }

/-- The method `write(samples, n_samples)`: `samples` is the array behind the
pointer, `n_samples * sizeof(int16_t)` is evaluated in `size_t`. Reading beyond the
last sample is undefined in C; the model reads what the array holds. -/
def WhisperUploader.write (u : WhisperUploader) (samples : List Int) (n_samples : Nat) :
    WhisperUploader :=
  if !u.enabled_ then u
  else
    let ptr := sample_bytes samples
    { u with buffer_ :=
        vec_insert u.buffer_ u.buffer_.length (ptr.take (n_samples * 2 % SIZE_MOD)) }

/-- The local array `header` of `make_wav_header_` once all thirteen `memcpy` calls
have run, for the member `sample_rate_` and the value of `buffer_.size()`. -/
def wav_header (sample_rate_ : Int) (size : Nat) : List Nat :=
  let data_size : Nat := to_u32 size
  let riff_size : Nat := to_u32 (36 + data_size)
  let header : List Nat := List.replicate 44 0
  let header := memcpy header 0 (cstr "RIFF") 4
  let header := memcpy header 4 (le32 riff_size) 4
  let header := memcpy header 8 (cstr "WAVE") 4
  let header := memcpy header 12 (cstr "fmt ") 4
  let subchunk1_size : Nat := 16
  let audio_format : Nat := 1
  let num_channels : Nat := 1
  let sample_rate : Nat := int_to_u32 sample_rate_
  let byte_rate : Nat := int_to_u32 (sample_rate_ * (num_channels : Int) * 2)
  let block_align : Nat := int_to_u16 ((num_channels : Int) * 2)
  let bits_per_sample : Nat := 16
  let header := memcpy header 16 (le32 subchunk1_size) 4
  let header := memcpy header 20 (le16 audio_format) 2
  let header := memcpy header 22 (le16 num_channels) 2
  let header := memcpy header 24 (le32 sample_rate) 4
  let header := memcpy header 28 (le32 byte_rate) 4
  let header := memcpy header 32 (le16 block_align) 2
  let header := memcpy header 34 (le16 bits_per_sample) 2
  let header := memcpy header 36 (cstr "data") 4
  let header := memcpy header 40 (le32 data_size) 4
  header

/-- The method `make_wav_header_()`: build the header and insert its 44 bytes at the
front of the buffer. -/
def WhisperUploader.make_wav_header_ (u : WhisperUploader) : WhisperUploader :=
  let header := wav_header u.sample_rate_ u.buffer_.length
  { u with buffer_ := vec_insert u.buffer_ 0 (header.take 44) }

/-! ## The HTTP client, as far as the component uses it -/

/-- Event identifiers of `esp_http_client`. The handler singles out
`HTTP_EVENT_ON_DATA`; every other identifier is kept by its numeric code. -/
inductive HttpEventId where
  | HTTP_EVENT_ON_DATA
  | other (code : Nat)
  deriving DecidableEq, Repr

/-- The fields of `esp_http_client_event_t` read by the handler. `user_data` tells
whether the pointer is non-null; the string it points to is passed separately. -/
structure HttpEvent where
  event_id : HttpEventId
  user_data : Bool
  data : List Char
  data_len : Nat
  deriving DecidableEq, Repr

/-- The static method `http_event_handler_`, acting on the string behind
`evt->user_data`. It always returns `ESP_OK`, which the model leaves out. -/
def http_event_handler_ (evt : HttpEvent) (resp : List Char) : List Char :=
  if evt.event_id = HttpEventId.HTTP_EVENT_ON_DATA && evt.user_data then
    resp ++ evt.data.take evt.data_len
  else resp

/-- One call into the `esp_http_client` library, with the arguments the component
passes. -/
inductive ClientCall where
  | init (host : List Char) (port : Nat) (path : List Char)
  | set_method_post
  | set_header (key value : List Char)
  | client_open (write_len : Nat)
  | client_write (body : List Nat) (len : Nat)
  | fetch_headers
  | read_response
  | get_status_code
  | close
  | cleanup
  deriving DecidableEq, Repr

/-- What the transport and the server do during one upload: the `esp_err_t` returned
by `esp_http_client_open` (`0` is `ESP_OK`), the events delivered to the handler
while the request is performed (identifier, chunk, chunk length), and the status
code. -/
structure HttpServer where
  open_err : Nat
  events : List (HttpEventId × List Char × Nat)
  status : Int
  deriving DecidableEq, Repr

/-- Result of running a method that talks to the network: the library calls issued,
in order, and the component afterwards, or `none` when `ESP_ERROR_CHECK` aborted. -/
structure Outcome where
  calls : List ClientCall
  final : Option WhisperUploader
  deriving DecidableEq, Repr

/-! ## Reading the reply -/

/-- Search for `pat` in `s`, whose first character has index `i`. -/
def find_at (pat : List Char) : List Char → Nat → Nat
  | [], i => if pat = [] then i else npos
  | c :: cs, i => if pat.isPrefixOf (c :: cs) then i else find_at pat cs (i + 1)

/-- The call `s.find(pat, pos)` of `std::string`. -/
def string_find (s : List Char) (pat : List Char) (pos : Nat) : Nat :=
  if s.length < pos then npos else find_at pat (s.drop pos) pos

/-- Search for the character `c` in `s`, whose first character has index `i`. -/
def find_char_at (c : Char) : List Char → Nat → Nat
  | [], _ => npos
  | x :: xs, i => if x = c then i else find_char_at c xs (i + 1)

/-- The call `s.find_first_of(c, pos)` of `std::string`. -/
def find_first_of (s : List Char) (c : Char) (pos : Nat) : Nat :=
  find_char_at c (s.drop pos) pos

/-- The call `s.substr(pos, n)` of `std::string`, for `pos` not beyond the end (the
only use has `pos = quote1 + 1` with `quote1` a position inside `s`). -/
def substr (s : List Char) (pos : Nat) (n : Nat) : List Char :=
  (s.drop pos).take n

/-- The field marker searched for in the reply: the six characters `"text"`. -/
def MARKER : List Char := ['"', 't', 'e', 'x', 't', '"']

/-- The sentinel published when the scan fails. -/
def ERROR_TEXT : List Char := ['<', 'e', 'r', 'r', 'o', 'r', '>']

/-- The scan at the end of `post_buffer_` (from `response.find` to the conditional
expression), with `size_t` arithmetic modulo `SIZE_MOD`. -/
def extract_text (response : List Char) : List Char :=
  let pos1 := string_find response MARKER 0
  let pos2 := find_first_of response ':' pos1
  let quote1 := find_first_of response '"' ((pos2 + 1) % SIZE_MOD)
  let quote2 := find_first_of response '"' ((quote1 + 1) % SIZE_MOD)
  if pos1 ≠ npos ∧ quote1 ≠ npos ∧ quote2 ≠ npos then
    substr response ((quote1 + 1) % SIZE_MOD) (size_sub (size_sub quote2 quote1) 1)
  else ERROR_TEXT

/-! ## Upload -/

/-- The string `response` after the library has delivered `events` to the handler
registered in the configuration, with `user_data = &response`. -/
def deliver (events : List (HttpEventId × List Char × Nat)) (response : List Char) :
    List Char :=
  events.foldl
    (fun resp e =>
      http_event_handler_
        { event_id := e.1, user_data := true, data := e.2.1, data_len := e.2.2 } resp)
    response

/-- Library calls made by `post_buffer_` up to and including
`esp_http_client_open`. -/
def request_head (u : WhisperUploader) : List ClientCall :=
  [ClientCall.init u.host_ u.port_ u.path_,
   ClientCall.set_method_post,
   ClientCall.set_header "Content-Type".toList "audio/wav".toList]
  ++ (if !u.token_.isEmpty then
        [ClientCall.set_header "Authorization".toList ("Bearer ".toList ++ u.token_)]
      else [])
  ++ [ClientCall.client_open u.buffer_.length]

/-- The method `post_buffer_()`. -/
def WhisperUploader.post_buffer_ (u : WhisperUploader) (srv : HttpServer) : Outcome :=
  if srv.open_err ≠ 0 then
    { calls := request_head u, final := none }
  else
    let calls := request_head u ++
      [ClientCall.client_write u.buffer_ u.buffer_.length,
       ClientCall.fetch_headers,
       ClientCall.read_response,
       ClientCall.get_status_code,
       ClientCall.close,
       ClientCall.cleanup]
    let response := deliver srv.events []
    let text := extract_text response
    let sensor :=
      match u.result_sensor_ with
      | some t => some (t.publish_state text)
      | none => none
    { calls := calls, final := some { u with result_sensor_ := sensor } }

/-- The method `stop_and_post()`. -/
def WhisperUploader.stop_and_post (u : WhisperUploader) (srv : HttpServer) : Outcome :=
  if !u.enabled_ then { calls := [], final := some u }
  else
    let u := { u with enabled_ := false }
    let u := u.make_wav_header_
    let out := u.post_buffer_ srv
    match out.final with
    | none => out
    | some u => { out with final := some { u with buffer_ := [] } }

/-- A run of `write` calls, each given by its array and its count. -/
def WhisperUploader.writes (u : WhisperUploader) : List (List Int × Nat) → WhisperUploader
  | [] => u
  | w :: ws => (u.write w.1 w.2).writes ws

/-! ## Reading a header back

The repository builds headers and never parses one; the reader below follows the
canonical RIFF/WAVE layout and serves to state what a header means. -/

/-- Value of a little-endian byte string. -/
def read_le : List Nat → Nat
  | [] => 0
  | b :: bs => b + 256 * read_le bs

/-- The `n` bytes of `bytes` starting at offset `off`. -/
def field (bytes : List Nat) (off n : Nat) : List Nat := (bytes.drop off).take n

/-- The fields of a canonical 44-byte PCM header. -/
structure WavInfo where
  riff_size : Nat
  fmt_size : Nat
  audio_format : Nat
  channel_count : Nat
  sample_rate : Nat
  byte_rate : Nat
  block_align : Nat
  bits_per_sample : Nat
  data_size : Nat
  deriving DecidableEq, Repr

/-- Parse a canonical header: 44 bytes, the four tags in place, every number
little-endian. -/
def parse_wav_header (h : List Nat) : Option WavInfo :=
  if h.length = 44 ∧ (∀ b ∈ h, b < 256) ∧ field h 0 4 = cstr "RIFF" ∧
      field h 8 4 = cstr "WAVE" ∧ field h 12 4 = cstr "fmt " ∧ field h 36 4 = cstr "data" then
    some
      { riff_size := read_le (field h 4 4)
        fmt_size := read_le (field h 16 4)
        audio_format := read_le (field h 20 2)
        channel_count := read_le (field h 22 2)
        sample_rate := read_le (field h 24 4)
        byte_rate := read_le (field h 28 4)
        block_align := read_le (field h 32 2)
        bits_per_sample := read_le (field h 34 2)
        data_size := read_le (field h 40 4) }
  else none

/-! ## Vocabulary of the statements -/

/-- Number of samples delivered by a run of `write` calls. -/
def total_samples : List (List Int × Nat) → Nat
  | [] => 0
  | w :: ws => w.2 + total_samples ws

/-- The two bytes of a sample, least significant first, computed on the integer. -/
def sample_lo_hi (s : Int) : List Nat := [(s % 256).toNat, (s / 256 % 256).toNat]

/-- The reply body the server delivers: the chunks of the data events, in order of
arrival. -/
def response_body : List (HttpEventId × List Char × Nat) → List Char
  | [] => []
  | e :: es =>
    (if e.1 = HttpEventId.HTTP_EVENT_ON_DATA then e.2.1.take e.2.2 else []) ++ response_body es

/-! ## A small recording, used to instantiate the results -/

/-- A component configured for 16 kHz. -/
def demo_uploader : WhisperUploader :=
  WhisperUploader.new 16000 "whisper.local".toList 8080 "/inference".toList []

/-- A server that accepts the connection and answers in one chunk. -/
def demo_server : HttpServer :=
  { open_err := 0
    events :=
      [(HttpEventId.other 1, [], 0),
       (HttpEventId.HTTP_EVENT_ON_DATA, "\x7b\"text\":\"hola mundo\"\x7d".toList, 21)]
    status := 200 }

/-- The component after `start()` and one `write` of three samples. -/
def demo_recorded : WhisperUploader := (demo_uploader.start).write [1, -2, 258] 3

/-- A server whose connection cannot be opened (`ESP_FAIL`). -/
def refusing_server : HttpServer :=
  { open_err := 0xFFFFFFFF
    events := []
    status := 0 }

/-- The handler applied to a sequence of events that share one accumulator. -/
def handle_events : List HttpEvent → List Char → List Char
  | [], resp => resp
  | e :: es, resp => handle_events es (http_event_handler_ e resp)

/-- The data chunks of a sequence of events, in order of arrival: for each
`HTTP_EVENT_ON_DATA` event the `data_len` characters behind `data`. -/
def data_chunks : List HttpEvent → List Char
  | [] => []
  | e :: es =>
    (if e.event_id = HttpEventId.HTTP_EVENT_ON_DATA then e.data.take e.data_len else []) ++
      data_chunks es

/-- Bytes of four seconds of 16 kHz, 16-bit, mono audio. -/
def FOUR_SECONDS_BYTES : Nat := 4 * 16000 * 2

/-! ## Auxiliary facts: integers and bytes -/

theorem read_le_le32 (v : Nat) (h : v < 4294967296) : read_le (le32 v) = v := by
  simp only [le32, read_le]
  omega

theorem read_le_le16 (v : Nat) (h : v < 65536) : read_le (le16 v) = v := by
  simp only [le16, read_le]
  omega

theorem to_u32_lt (n : Nat) : to_u32 n < 4294967296 := by
  unfold to_u32
  omega

theorem to_u32_of_lt (n : Nat) (h : n < 4294967296) : to_u32 n = n := by
  unfold to_u32
  omega

theorem int_to_u32_lt (i : Int) : int_to_u32 i < 4294967296 := by
  unfold int_to_u32
  omega

theorem int_to_u32_cast (i : Int) (h0 : 0 ≤ i) (h1 : i < 4294967296) :
    ((int_to_u32 i : Nat) : Int) = i := by
  unfold int_to_u32
  omega

theorem int_to_u16_lt (i : Int) : int_to_u16 i < 65536 := by
  unfold int_to_u16
  omega

theorem le32_bytes (v b : Nat) (hb : b ∈ le32 v) : b < 256 := by
  simp only [le32, List.mem_cons, List.mem_singleton, List.not_mem_nil, or_false] at hb
  omega

theorem le16_bytes (v b : Nat) (hb : b ∈ le16 v) : b < 256 := by
  simp only [le16, List.mem_cons, List.mem_singleton, List.not_mem_nil, or_false] at hb
  omega

/-! ## Auxiliary facts: the header -/

theorem memcpy_unfold (dst : List Nat) (off : Nat) (src : List Nat) (n : Nat) :
    memcpy dst off src n = dst.take off ++ src.take n ++ dst.drop (off + n) := rfl

theorem cstr_RIFF : cstr "RIFF" = [82, 73, 70, 70] := by decide

theorem cstr_WAVE : cstr "WAVE" = [87, 65, 86, 69] := by decide

theorem cstr_fmt : cstr "fmt " = [102, 109, 116, 32] := by decide

theorem cstr_data : cstr "data" = [100, 97, 116, 97] := by decide

theorem block_align_value : int_to_u16 (((1 : Nat) : Int) * 2) = 2 := by decide

/-- The header array spelled out byte by byte. -/
theorem wav_header_bytes (sr : Int) (n : Nat) :
    wav_header sr n =
      [82, 73, 70, 70] ++ le32 (to_u32 (36 + to_u32 n)) ++ [87, 65, 86, 69] ++
        [102, 109, 116, 32] ++ le32 16 ++ le16 1 ++ le16 1 ++ le32 (int_to_u32 sr) ++
        le32 (int_to_u32 (sr * ((1 : Nat) : Int) * 2)) ++ le16 2 ++ le16 16 ++
        [100, 97, 116, 97] ++ le32 (to_u32 n) := by
  simp only [wav_header, cstr_RIFF, cstr_WAVE, cstr_fmt, cstr_data, block_align_value,
    memcpy_unfold, le32, le16, List.replicate, List.take, List.drop, List.append,
    List.cons_append, List.nil_append]

theorem wav_header_length (sr : Int) (n : Nat) : (wav_header sr n).length = 44 := by
  rw [wav_header_bytes]
  rfl

theorem wav_header_byte_range (sr : Int) (n b : Nat) (hb : b ∈ wav_header sr n) : b < 256 := by
  rw [wav_header_bytes] at hb
  simp only [le32, le16, List.cons_append, List.nil_append, List.mem_cons,
    List.not_mem_nil, or_false] at hb
  omega

/-- The buffer after `make_wav_header_`: the header array followed by the payload. -/
theorem make_wav_header_buffer (u : WhisperUploader) :
    u.make_wav_header_.buffer_ = wav_header u.sample_rate_ u.buffer_.length ++ u.buffer_ := by
  have h44 := wav_header_length u.sample_rate_ u.buffer_.length
  simp only [WhisperUploader.make_wav_header_, vec_insert, List.take_zero, List.drop_zero,
    List.nil_append]
  rw [List.take_of_length_le (by omega)]

/-- A field that lies inside the header is read from the header alone. -/
theorem field_header_append (h p : List Nat) (off n : Nat) (hlen : off + n ≤ h.length) :
    field (h ++ p) off n = field h off n := by
  unfold field
  rw [List.drop_append_of_le_length (by omega), List.take_append_of_le_length]
  simp only [List.length_drop]
  omega

/-- A field cut out of a concatenation at the position of one of its parts. -/
theorem field_part (P X S : List Nat) (off n : Nat) (hP : P.length = off)
    (hX : X.length = n) : field (P ++ X ++ S) off n = X := by
  subst hP hX
  simp [field]

/-- The thirteen fields of a 44-byte string given as thirteen parts. -/
theorem field_segments (A B C D E F G H I J K L M h : List Nat)
    (hh : h = A ++ B ++ C ++ D ++ E ++ F ++ G ++ H ++ I ++ J ++ K ++ L ++ M)
    (hA : A.length = 4) (hB : B.length = 4) (hC : C.length = 4) (hD : D.length = 4)
    (hE : E.length = 4) (hF : F.length = 2) (hG : G.length = 2) (hH : H.length = 4)
    (hI : I.length = 4) (hJ : J.length = 2) (hK : K.length = 2) (hL : L.length = 4)
    (hM : M.length = 4) :
    field h 0 4 = A ∧ field h 4 4 = B ∧ field h 8 4 = C ∧ field h 12 4 = D ∧
    field h 16 4 = E ∧ field h 20 2 = F ∧ field h 22 2 = G ∧ field h 24 4 = H ∧
    field h 28 4 = I ∧ field h 32 2 = J ∧ field h 34 2 = K ∧ field h 36 4 = L ∧
    field h 40 4 = M := by
  subst hh
  refine ⟨?_, ?_, ?_, ?_, ?_, ?_, ?_, ?_, ?_, ?_, ?_, ?_, ?_⟩
  · have := field_part [] A (B ++ C ++ D ++ E ++ F ++ G ++ H ++ I ++ J ++ K ++ L ++ M)
      0 4 rfl hA
    simpa [List.append_assoc] using this
  · have := field_part A B (C ++ D ++ E ++ F ++ G ++ H ++ I ++ J ++ K ++ L ++ M) 4 4 hA hB
    simpa [List.append_assoc] using this
  · have := field_part (A ++ B) C (D ++ E ++ F ++ G ++ H ++ I ++ J ++ K ++ L ++ M) 8 4
      (by simp [*]) hC
    simpa [List.append_assoc] using this
  · have := field_part (A ++ B ++ C) D (E ++ F ++ G ++ H ++ I ++ J ++ K ++ L ++ M) 12 4
      (by simp [*]) hD
    simpa [List.append_assoc] using this
  · have := field_part (A ++ B ++ C ++ D) E (F ++ G ++ H ++ I ++ J ++ K ++ L ++ M) 16 4
      (by simp [*]) hE
    simpa [List.append_assoc] using this
  · have := field_part (A ++ B ++ C ++ D ++ E) F (G ++ H ++ I ++ J ++ K ++ L ++ M) 20 2
      (by simp [*]) hF
    simpa [List.append_assoc] using this
  · have := field_part (A ++ B ++ C ++ D ++ E ++ F) G (H ++ I ++ J ++ K ++ L ++ M) 22 2
      (by simp [*]) hG
    simpa [List.append_assoc] using this
  · have := field_part (A ++ B ++ C ++ D ++ E ++ F ++ G) H (I ++ J ++ K ++ L ++ M) 24 4
      (by simp [*]) hH
    simpa [List.append_assoc] using this
  · have := field_part (A ++ B ++ C ++ D ++ E ++ F ++ G ++ H) I (J ++ K ++ L ++ M) 28 4
      (by simp [*]) hI
    simpa [List.append_assoc] using this
  · have := field_part (A ++ B ++ C ++ D ++ E ++ F ++ G ++ H ++ I) J (K ++ L ++ M) 32 2
      (by simp [*]) hJ
    simpa [List.append_assoc] using this
  · have := field_part (A ++ B ++ C ++ D ++ E ++ F ++ G ++ H ++ I ++ J) K (L ++ M) 34 2
      (by simp [*]) hK
    simpa [List.append_assoc] using this
  · have := field_part (A ++ B ++ C ++ D ++ E ++ F ++ G ++ H ++ I ++ J ++ K) L M 36 4
      (by simp [*]) hL
    simpa [List.append_assoc] using this
  · have := field_part (A ++ B ++ C ++ D ++ E ++ F ++ G ++ H ++ I ++ J ++ K ++ L) M [] 40 4
      (by simp [*]) hM
    simpa [List.append_assoc] using this

/-- Every field of the header array, read back as a little-endian number. -/
theorem wav_header_fields (sr : Int) (n : Nat) :
    field (wav_header sr n) 0 4 = [82, 73, 70, 70] ∧
    read_le (field (wav_header sr n) 4 4) = to_u32 (36 + to_u32 n) ∧
    field (wav_header sr n) 8 4 = [87, 65, 86, 69] ∧
    field (wav_header sr n) 12 4 = [102, 109, 116, 32] ∧
    read_le (field (wav_header sr n) 16 4) = 16 ∧
    read_le (field (wav_header sr n) 20 2) = 1 ∧
    read_le (field (wav_header sr n) 22 2) = 1 ∧
    read_le (field (wav_header sr n) 24 4) = int_to_u32 sr ∧
    read_le (field (wav_header sr n) 28 4) = int_to_u32 (sr * ((1 : Nat) : Int) * 2) ∧
    read_le (field (wav_header sr n) 32 2) = 2 ∧
    read_le (field (wav_header sr n) 34 2) = 16 ∧
    field (wav_header sr n) 36 4 = [100, 97, 116, 97] ∧
    read_le (field (wav_header sr n) 40 4) = to_u32 n := by
  obtain ⟨f0, f4, f8, f12, f16, f20, f22, f24, f28, f32, f34, f36, f40⟩ :=
    field_segments _ _ _ _ _ _ _ _ _ _ _ _ _ _ (wav_header_bytes sr n)
      rfl rfl rfl rfl rfl rfl rfl rfl rfl rfl rfl rfl rfl
  rw [f0, f4, f8, f12, f16, f20, f22, f24, f28, f32, f34, f36, f40]
  exact ⟨rfl, read_le_le32 _ (to_u32_lt _), rfl, rfl, read_le_le32 16 (by omega),
    read_le_le16 1 (by omega), read_le_le16 1 (by omega), read_le_le32 _ (int_to_u32_lt _),
    read_le_le32 _ (int_to_u32_lt _), read_le_le16 2 (by omega), read_le_le16 16 (by omega),
    rfl, read_le_le32 _ (to_u32_lt _)⟩

/-! ## The container -/

/-- C1: for a sample rate `0 < sr < 2^31` and a payload of `n` bytes with
`36 + n < 2^32`, the first 44 bytes written by `make_wav_header_` are bytes (all
below 256) laid out as `RIFF`, the number `36 + n`, `WAVE`, `fmt `, 16, 1, 1, `sr`,
`sr * 1 * 2`, 2, 16, `data`, `n`, every number being the little-endian value of its
field of 4 or 2 bytes. -/
theorem make_wav_header_layout (u : WhisperUploader) (hpos : 0 < u.sample_rate_)
    (hsr : u.sample_rate_ < 2 ^ 31) (hn : 36 + u.buffer_.length < 2 ^ 32) :
    (u.make_wav_header_.buffer_.take 44).length = 44 ∧
    (∀ b ∈ u.make_wav_header_.buffer_.take 44, b < 256) ∧
    field (u.make_wav_header_.buffer_.take 44) 0 4 = [82, 73, 70, 70] ∧
    read_le (field (u.make_wav_header_.buffer_.take 44) 4 4) = 36 + u.buffer_.length ∧
    read_le (field (u.make_wav_header_.buffer_.take 44) 4 4) = 44 + u.buffer_.length - 8 ∧
    field (u.make_wav_header_.buffer_.take 44) 8 4 = [87, 65, 86, 69] ∧
    field (u.make_wav_header_.buffer_.take 44) 12 4 = [102, 109, 116, 32] ∧
    read_le (field (u.make_wav_header_.buffer_.take 44) 16 4) = 16 ∧
    read_le (field (u.make_wav_header_.buffer_.take 44) 20 2) = 1 ∧
    read_le (field (u.make_wav_header_.buffer_.take 44) 22 2) = 1 ∧
    (read_le (field (u.make_wav_header_.buffer_.take 44) 24 4) : Int) = u.sample_rate_ ∧
    (read_le (field (u.make_wav_header_.buffer_.take 44) 28 4) : Int)
      = u.sample_rate_ * 1 * 2 ∧
    read_le (field (u.make_wav_header_.buffer_.take 44) 32 2) = 2 ∧
    read_le (field (u.make_wav_header_.buffer_.take 44) 34 2) = 16 ∧
    field (u.make_wav_header_.buffer_.take 44) 36 4 = [100, 97, 116, 97] ∧
    read_le (field (u.make_wav_header_.buffer_.take 44) 40 4) = u.buffer_.length := by
  have h44 := wav_header_length u.sample_rate_ u.buffer_.length
  have htake : u.make_wav_header_.buffer_.take 44
      = wav_header u.sample_rate_ u.buffer_.length := by
    rw [make_wav_header_buffer, List.take_append_of_le_length (by omega),
      List.take_of_length_le (by omega)]
  obtain ⟨f0, f4, f8, f12, f16, f20, f22, f24, f28, f32, f34, f36, f40⟩ :=
    wav_header_fields u.sample_rate_ u.buffer_.length
  have e1 : to_u32 u.buffer_.length = u.buffer_.length := to_u32_of_lt _ (by omega)
  have e2 : to_u32 (36 + to_u32 u.buffer_.length) = 36 + u.buffer_.length := by
    rw [e1]
    exact to_u32_of_lt _ (by omega)
  have e3 := int_to_u32_cast u.sample_rate_ (by omega) (by omega)
  have e4 := int_to_u32_cast (u.sample_rate_ * ((1 : Nat) : Int) * 2) (by omega) (by omega)
  rw [htake]
  refine ⟨h44, fun b hb => wav_header_byte_range _ _ b hb, f0, ?_, ?_, f8, f12, f16, f20,
    f22, ?_, ?_, f32, f34, f36, ?_⟩
  · rw [f4, e2]
  · rw [f4, e2]
    omega
  · rw [f24, e3]
  · rw [f28, e4]
    simp
  · rw [f40, e1]

/-- Witness of `make_wav_header_layout`: 16 kHz and a payload of six bytes. -/
theorem make_wav_header_layout_witness :
    read_le (field (demo_recorded.make_wav_header_.buffer_.take 44) 40 4)
      = demo_recorded.buffer_.length :=
  (make_wav_header_layout demo_recorded (by decide) (by decide)
    (by decide)).2.2.2.2.2.2.2.2.2.2.2.2.2.2.2

/-- C3: the buffer after `make_wav_header_` is the 44-byte header followed by the
payload: its length is 44 plus the payload length, its first 44 bytes are the header
array, and from offset 44 on it holds the payload bytes unchanged and in order; no
other field of the component changes. -/
theorem make_wav_header_prepends (u : WhisperUploader) :
    u.make_wav_header_.buffer_ = wav_header u.sample_rate_ u.buffer_.length ++ u.buffer_ ∧
    u.make_wav_header_.buffer_.length = 44 + u.buffer_.length ∧
    u.make_wav_header_.buffer_.take 44 = wav_header u.sample_rate_ u.buffer_.length ∧
    (wav_header u.sample_rate_ u.buffer_.length).length = 44 ∧
    u.make_wav_header_.buffer_.drop 44 = u.buffer_ ∧
    (∀ i, u.make_wav_header_.buffer_[44 + i]? = u.buffer_[i]?) ∧
    u.make_wav_header_ = { u with buffer_ := u.make_wav_header_.buffer_ } := by
  have h44 := wav_header_length u.sample_rate_ u.buffer_.length
  have hb := make_wav_header_buffer u
  refine ⟨hb, ?_, ?_, h44, ?_, ?_, rfl⟩
  · rw [hb, List.length_append, h44]
  · rw [hb, List.take_append_of_le_length (by omega), List.take_of_length_le (by omega)]
  · rw [hb, List.drop_append_of_le_length (by omega), List.drop_of_length_le (by omega)]
    rfl
  · intro i
    rw [hb, List.getElem?_append_right (by omega), h44]
    simp

/-- The two size fields of the container, for any payload. -/
theorem container_size_fields (u : WhisperUploader) :
    u.make_wav_header_.buffer_.length = 44 + u.buffer_.length ∧
    read_le (field u.make_wav_header_.buffer_ 4 4) = to_u32 (36 + to_u32 u.buffer_.length) ∧
    read_le (field u.make_wav_header_.buffer_ 40 4) = to_u32 u.buffer_.length := by
  have h44 := wav_header_length u.sample_rate_ u.buffer_.length
  obtain ⟨_, f4, _, _, _, _, _, _, _, _, _, _, f40⟩ :=
    wav_header_fields u.sample_rate_ u.buffer_.length
  rw [make_wav_header_buffer, field_header_append _ _ 4 4 (by omega),
    field_header_append _ _ 40 4 (by omega), List.length_append, h44]
  exact ⟨rfl, f4, f40⟩

/-- The reader accepts any 44 bytes that carry the four tags. -/
theorem parse_wav_header_accepts (H : List Nat)
    (hok : H.length = 44 ∧ (∀ b ∈ H, b < 256) ∧ field H 0 4 = cstr "RIFF" ∧
      field H 8 4 = cstr "WAVE" ∧ field H 12 4 = cstr "fmt " ∧ field H 36 4 = cstr "data") :
    parse_wav_header H = some
      { riff_size := read_le (field H 4 4)
        fmt_size := read_le (field H 16 4)
        audio_format := read_le (field H 20 2)
        channel_count := read_le (field H 22 2)
        sample_rate := read_le (field H 24 4)
        byte_rate := read_le (field H 28 4)
        block_align := read_le (field H 32 2)
        bits_per_sample := read_le (field H 34 2)
        data_size := read_le (field H 40 4) } := by
  rw [parse_wav_header, if_pos hok]

/-- C4: for a sample rate `0 ≤ sr < 2^31` (a non-negative `int`) and a data size
`n < 2^32` (a `uint32_t`), the canonical RIFF/WAVE reader accepts the 44 bytes that
`make_wav_header_` puts in front of a payload of `n` bytes and recovers sample rate
`sr`, one channel, 16 bits per sample, data size `n`, byte rate `sr * 2` and block
align 2. -/
theorem header_round_trip (u : WhisperUploader) (h0 : 0 ≤ u.sample_rate_)
    (h1 : u.sample_rate_ < 2 ^ 31) (hn : u.buffer_.length < 2 ^ 32) :
    ∃ info : WavInfo,
      parse_wav_header (u.make_wav_header_.buffer_.take 44) = some info ∧
      (info.sample_rate : Int) = u.sample_rate_ ∧
      info.channel_count = 1 ∧
      info.bits_per_sample = 16 ∧
      info.data_size = u.buffer_.length ∧
      (info.byte_rate : Int) = u.sample_rate_ * 2 ∧
      info.block_align = 2 := by
  have h44 := wav_header_length u.sample_rate_ u.buffer_.length
  have htake : u.make_wav_header_.buffer_.take 44
      = wav_header u.sample_rate_ u.buffer_.length := by
    rw [make_wav_header_buffer, List.take_append_of_le_length (by omega),
      List.take_of_length_le (by omega)]
  obtain ⟨f0, f4, f8, f12, f16, f20, f22, f24, f28, f32, f34, f36, f40⟩ :=
    wav_header_fields u.sample_rate_ u.buffer_.length
  have hrange : ∀ b ∈ wav_header u.sample_rate_ u.buffer_.length, b < 256 :=
    fun b hb => wav_header_byte_range _ _ b hb
  have e3 := int_to_u32_cast u.sample_rate_ h0 (by omega)
  have e4 := int_to_u32_cast (u.sample_rate_ * ((1 : Nat) : Int) * 2) (by omega) (by omega)
  have e5 := to_u32_of_lt u.buffer_.length (by omega)
  rw [htake]
  generalize wav_header u.sample_rate_ u.buffer_.length = H at *
  rw [← cstr_RIFF] at f0
  rw [← cstr_WAVE] at f8
  rw [← cstr_fmt] at f12
  rw [← cstr_data] at f36
  refine ⟨_, parse_wav_header_accepts H ⟨h44, hrange, f0, f8, f12, f36⟩, ?_, f22, f34, ?_, ?_,
    f32⟩
  · show ((read_le (field H 24 4) : Nat) : Int) = u.sample_rate_
    rw [f24, e3]
  · show read_le (field H 40 4) = u.buffer_.length
    rw [f40, e5]
  · show ((read_le (field H 28 4) : Nat) : Int) = u.sample_rate_ * 2
    rw [f28, e4]
    simp

/-- Witness of `header_round_trip`: the three-sample recording at 16 kHz. -/
theorem header_round_trip_witness :
    ∃ info : WavInfo,
      parse_wav_header (demo_recorded.make_wav_header_.buffer_.take 44) = some info ∧
      (info.sample_rate : Int) = demo_recorded.sample_rate_ ∧
      info.channel_count = 1 ∧
      info.bits_per_sample = 16 ∧
      info.data_size = demo_recorded.buffer_.length ∧
      (info.byte_rate : Int) = demo_recorded.sample_rate_ * 2 ∧
      info.block_align = 2 :=
  header_round_trip demo_recorded (by decide) (by decide) (by decide)

/-- The two size fields as the code computes them: `buffer_.size()` converted to
`uint32_t` for the data chunk, and 36 plus that value, again in `uint32_t`, for the
RIFF chunk. The method has no check and no failure path. -/
theorem make_wav_header_sizes_wrap (u : WhisperUploader) :
    u.make_wav_header_.buffer_.length = 44 + u.buffer_.length ∧
    read_le (field u.make_wav_header_.buffer_ 40 4) = u.buffer_.length % 2 ^ 32 ∧
    read_le (field u.make_wav_header_.buffer_ 4 4)
      = (36 + u.buffer_.length % 2 ^ 32) % 2 ^ 32 := by
  obtain ⟨c1, c2, c3⟩ := container_size_fields u
  exact ⟨c1, c3, c2⟩

/-! ## Recording -/

theorem int16_bytes_lo_hi (s : Int) : int16_bytes s = sample_lo_hi s := by
  simp only [int16_bytes, le16, int_to_u16, sample_lo_hi, List.cons.injEq, and_true]
  omega

theorem sample_bytes_flatMap (samples : List Int) :
    sample_bytes samples = samples.flatMap sample_lo_hi := by
  induction samples with
  | nil => rfl
  | cons s rest ih => rw [sample_bytes, List.flatMap_cons, ih, int16_bytes_lo_hi]

theorem sample_bytes_length (samples : List Int) :
    (sample_bytes samples).length = 2 * samples.length := by
  induction samples with
  | nil => rfl
  | cons s rest ih =>
    rw [sample_bytes, List.length_append, ih, List.length_cons]
    simp only [int16_bytes, le16, List.length_cons, List.length_nil]
    omega

/-- The buffer after an enabled `write`. -/
theorem write_enabled_buffer (u : WhisperUploader) (samples : List Int) (n : Nat)
    (h : u.enabled_ = true) :
    u.write samples n
      = { u with buffer_ := u.buffer_ ++ (sample_bytes samples).take (n * 2 % SIZE_MOD) } := by
  simp [WhisperUploader.write, h, vec_insert]

/-! ## Stopping: the three ways `stop_and_post` can go -/

theorem stop_and_post_disabled (v : WhisperUploader) (srv : HttpServer)
    (h : v.enabled_ = false) : v.stop_and_post srv = { calls := [], final := some v } := by
  simp [WhisperUploader.stop_and_post, h]

theorem post_buffer_refused (u : WhisperUploader) (srv : HttpServer) (ho : srv.open_err ≠ 0) :
    u.post_buffer_ srv = { calls := request_head u, final := none } := by
  simp [WhisperUploader.post_buffer_, ho]

theorem post_buffer_accepted (u : WhisperUploader) (srv : HttpServer) (ho : srv.open_err = 0) :
    u.post_buffer_ srv =
      { calls := request_head u ++
          [ClientCall.client_write u.buffer_ u.buffer_.length, ClientCall.fetch_headers,
           ClientCall.read_response, ClientCall.get_status_code, ClientCall.close,
           ClientCall.cleanup]
        final := some
          { u with
            result_sensor_ :=
              u.result_sensor_.map
                (fun t => t.publish_state (extract_text (deliver srv.events []))) } } := by
  cases hs : u.result_sensor_ <;> simp [WhisperUploader.post_buffer_, ho, hs]

theorem stop_and_post_refused (v : WhisperUploader) (srv : HttpServer)
    (h : v.enabled_ = true) (ho : srv.open_err ≠ 0) :
    v.stop_and_post srv =
      { calls := request_head ({ v with enabled_ := false } : WhisperUploader).make_wav_header_
        final := none } := by
  simp [WhisperUploader.stop_and_post, h, post_buffer_refused _ srv ho]

theorem stop_and_post_accepted (v : WhisperUploader) (srv : HttpServer)
    (h : v.enabled_ = true) (ho : srv.open_err = 0) :
    v.stop_and_post srv =
      { calls := request_head ({ v with enabled_ := false } : WhisperUploader).make_wav_header_ ++
          [ClientCall.client_write
              ({ v with enabled_ := false } : WhisperUploader).make_wav_header_.buffer_
              ({ v with enabled_ := false } : WhisperUploader).make_wav_header_.buffer_.length,
           ClientCall.fetch_headers, ClientCall.read_response, ClientCall.get_status_code,
           ClientCall.close, ClientCall.cleanup]
        final := some
          { v with
            enabled_ := false
            buffer_ := []
            result_sensor_ :=
              v.result_sensor_.map
                (fun t => t.publish_state (extract_text (deliver srv.events []))) } } := by
  simp only [WhisperUploader.stop_and_post, h, Bool.not_true, Bool.false_eq_true, if_false,
    post_buffer_accepted _ srv ho]
  rfl

/-- C8: with `enabled_ = false`, `write` returns the component as it was, for every
array and every count: the buffer and the flag (and every other field) are unchanged.
The states in question include the freshly constructed component and whatever
`stop_and_post` hands back. -/
theorem write_disabled_noop (u : WhisperUploader) (samples : List Int) (n : Nat)
    (h : u.enabled_ = false) :
    u.write samples n = u ∧
    (u.write samples n).buffer_ = u.buffer_ ∧
    (u.write samples n).enabled_ = false ∧
    (∀ sr host port path tok,
      (WhisperUploader.new sr host port path tok).write samples n
        = WhisperUploader.new sr host port path tok) ∧
    (∀ (v w : WhisperUploader) (srv : HttpServer),
      (v.stop_and_post srv).final = some w → w.write samples n = w) := by
  have noop : ∀ x : WhisperUploader, x.enabled_ = false → x.write samples n = x := by
    intro x hx
    simp [WhisperUploader.write, hx]
  refine ⟨noop u h, by rw [noop u h], by rw [noop u h, h], fun _ _ _ _ _ => noop _ rfl, ?_⟩
  intro v w srv hw
  apply noop
  cases hv : v.enabled_ with
  | false =>
    rw [stop_and_post_disabled v srv hv] at hw
    simp only [Option.some.injEq] at hw
    rw [← hw]
    exact hv
  | true =>
    by_cases ho : srv.open_err = 0
    · rw [stop_and_post_accepted v srv hv ho] at hw
      simp only [Option.some.injEq] at hw
      rw [← hw]
    · rw [stop_and_post_refused v srv hv ho] at hw
      exact absurd hw (by simp)

/-- Witness of `write_disabled_noop`: the component right after construction. -/
theorem write_disabled_noop_witness :
    demo_uploader.write [1, -2, 258] 3 = demo_uploader :=
  (write_disabled_noop demo_uploader [1, -2, 258] 3 (by decide)).1

/-- C9: with `enabled_ = true`, `write` of an array of `count` samples (which occupies
`2 * count < 2^32` bytes of the address space) appends to the buffer the two bytes of
every sample, least significant byte first, in the order of the samples: the buffer
grows by `2 * count` bytes, its previous contents stay in front, and no other field
changes. -/
theorem write_appends_little_endian (u : WhisperUploader) (samples : List Int)
    (h : u.enabled_ = true) (hfit : 2 * samples.length < 2 ^ 32) :
    (u.write samples samples.length).buffer_
      = u.buffer_ ++ samples.flatMap (fun s => [(s % 256).toNat, (s / 256 % 256).toNat]) ∧
    (u.write samples samples.length).buffer_.length = u.buffer_.length + 2 * samples.length ∧
    (u.write samples samples.length).buffer_.take u.buffer_.length = u.buffer_ ∧
    (∀ i (hi : i < samples.length),
      (u.write samples samples.length).buffer_[u.buffer_.length + 2 * i]?
        = some (samples[i] % 256).toNat ∧
      (u.write samples samples.length).buffer_[u.buffer_.length + 2 * i + 1]?
        = some (samples[i] / 256 % 256).toNat) ∧
    u.write samples samples.length
      = { u with buffer_ := (u.write samples samples.length).buffer_ } := by
  have hw := write_enabled_buffer u samples samples.length h
  have hlen := sample_bytes_length samples
  have hmod : samples.length * 2 % SIZE_MOD = samples.length * 2 := by
    unfold SIZE_MOD
    omega
  have hbuf : (u.write samples samples.length).buffer_ = u.buffer_ ++ sample_bytes samples := by
    rw [hw, hmod, List.take_of_length_le (by omega)]
  have hidx : ∀ (l : List Int) (i : Nat) (hi : i < l.length),
      (sample_bytes l)[2 * i]? = some (l[i] % 256).toNat ∧
      (sample_bytes l)[2 * i + 1]? = some (l[i] / 256 % 256).toNat := by
    intro l
    induction l with
    | nil => intro i hi; simp at hi
    | cons s rest ih =>
      intro i hi
      rw [sample_bytes, int16_bytes_lo_hi]
      cases i with
      | zero => simp [sample_lo_hi]
      | succ j =>
        have hj : j < rest.length := by simpa using hi
        have e1 : 2 * (j + 1) = 2 * j + 2 := by omega
        have e2 : 2 * j + 2 + 1 = 2 * j + 1 + 2 := by omega
        rw [e1, e2]
        simpa [sample_lo_hi] using ih j hj
  refine ⟨?_, ?_, ?_, ?_, ?_⟩
  · rw [hbuf, sample_bytes_flatMap]
    rfl
  · rw [hbuf, List.length_append, hlen]
  · rw [hbuf, List.take_left]
  · intro i hi
    rw [hbuf, Nat.add_assoc, List.getElem?_append_right (by omega),
      List.getElem?_append_right (by omega)]
    have := hidx samples i hi
    simpa [Nat.add_sub_cancel_left] using this
  · rw [hw]

/-- Witness of `write_appends_little_endian`: three samples, one of them negative. -/
theorem write_appends_little_endian_witness :
    (demo_uploader.start.write [1, -2, 258] 3).buffer_ = [1, 0, 254, 255, 2, 1] :=
  (write_appends_little_endian demo_uploader.start [1, -2, 258] (by decide) (by decide)).1

/-! ## A whole session -/

/-- A run of enabled writes, each within its array, extends the buffer by two bytes
per sample and changes nothing else. -/
theorem writes_enabled (ws : List (List Int × Nat)) :
    ∀ u : WhisperUploader, u.enabled_ = true → (∀ w ∈ ws, w.2 ≤ w.1.length) →
      2 * total_samples ws < 2 ^ 32 →
      ∃ bytes : List Nat, u.writes ws = { u with buffer_ := u.buffer_ ++ bytes } ∧
        bytes.length = 2 * total_samples ws := by
  induction ws with
  | nil =>
    intro u _ _ _
    exact ⟨[], by simp [WhisperUploader.writes], rfl⟩
  | cons w ws ih =>
    intro u h harr hfit
    rw [total_samples] at hfit
    have hw : w.2 ≤ w.1.length := harr w (List.mem_cons_self _ _)
    have hmod : w.2 * 2 % SIZE_MOD = w.2 * 2 := by
      unfold SIZE_MOD
      omega
    have hlen := sample_bytes_length w.1
    obtain ⟨bytes, hb, hbl⟩ := ih (u.write w.1 w.2)
      (by rw [write_enabled_buffer u w.1 w.2 h]; exact h)
      (fun x hx => harr x (List.mem_cons_of_mem _ hx)) (by omega)
    refine ⟨(sample_bytes w.1).take (w.2 * 2) ++ bytes, ?_, ?_⟩
    · rw [WhisperUploader.writes, hb, write_enabled_buffer u w.1 w.2 h, hmod]
      simp
    · rw [List.length_append, List.length_take, hlen, hbl, total_samples]
      omega

/-- The handler run over a list of events appends the reply body. -/
theorem deliver_eq (events : List (HttpEventId × List Char × Nat)) :
    ∀ resp : List Char, deliver events resp = resp ++ response_body events := by
  induction events with
  | nil => intro resp; simp [deliver, response_body]
  | cons e es ih =>
    intro resp
    have step : deliver (e :: es) resp
        = deliver es (http_event_handler_
            { event_id := e.1, user_data := true, data := e.2.1, data_len := e.2.2 } resp) := rfl
    rw [step, ih, response_body]
    by_cases he : e.1 = HttpEventId.HTTP_EVENT_ON_DATA
    · simp [http_event_handler_, he]
    · simp [http_event_handler_, he]

/-- The calls up to `esp_http_client_open`, spelled out. -/
theorem request_head_eq (u : WhisperUploader) :
    request_head u =
      [ClientCall.init u.host_ u.port_ u.path_, ClientCall.set_method_post,
       ClientCall.set_header "Content-Type".toList "audio/wav".toList] ++
      (if u.token_ = [] then []
       else [ClientCall.set_header "Authorization".toList ("Bearer ".toList ++ u.token_)]) ++
      [ClientCall.client_open u.buffer_.length] := by
  unfold request_head
  cases h : u.token_ <;> simp

/-- C2: after `start()`, for every run of `write` calls that deliver `count` samples
in total (each call within its array, and `count * 2` bytes fitting the 32-bit size
type), `stop_and_post` opens the request for, and when the connection opens sends,
one container `c`: the 44-byte header followed by the recorded bytes. Its data-size
field (bytes 40-43, little-endian) equals `count * 2`, which is also the length of
`c` minus 44. -/
theorem container_data_size (u0 : WhisperUploader) (ws : List (List Int × Nat))
    (srv : HttpServer) (harr : ∀ w ∈ ws, w.2 ≤ w.1.length)
    (hfit : total_samples ws * 2 < 2 ^ 32) :
    ∃ c : List Nat,
      ClientCall.client_open c.length ∈ ((u0.start.writes ws).stop_and_post srv).calls ∧
      (srv.open_err = 0 →
        ClientCall.client_write c c.length ∈ ((u0.start.writes ws).stop_and_post srv).calls) ∧
      (∀ b n, ClientCall.client_write b n ∈ ((u0.start.writes ws).stop_and_post srv).calls →
        b = c ∧ n = c.length) ∧
      c.drop 44 = (u0.start.writes ws).buffer_ ∧
      read_le (field c 40 4) = total_samples ws * 2 ∧
      read_le (field c 40 4) = c.length - 44 := by
  obtain ⟨bytes, hb, hbl⟩ := writes_enabled ws u0.start rfl harr (by omega)
  have hen : (u0.start.writes ws).enabled_ = true := by rw [hb]; rfl
  have hlen : (u0.start.writes ws).buffer_.length = total_samples ws * 2 := by
    rw [hb]
    simp [WhisperUploader.start, hbl]
    omega
  obtain ⟨c1, _, c3⟩ :=
    container_size_fields ({ u0.start.writes ws with enabled_ := false } : WhisperUploader)
  obtain ⟨p1, _, _, _, p5, _, _⟩ :=
    make_wav_header_prepends ({ u0.start.writes ws with enabled_ := false } : WhisperUploader)
  have hu32 : to_u32 (total_samples ws * 2) = total_samples ws * 2 := to_u32_of_lt _ (by omega)
  refine ⟨({ u0.start.writes ws with enabled_ := false } : WhisperUploader).make_wav_header_.buffer_,
    ?_, ?_, ?_, p5, ?_, ?_⟩
  · by_cases ho : srv.open_err = 0
    · rw [stop_and_post_accepted _ srv hen ho]
      simp [request_head]
    · rw [stop_and_post_refused _ srv hen ho]
      simp [request_head]
  · intro ho
    rw [stop_and_post_accepted _ srv hen ho]
    simp
  · intro b n hmem
    by_cases ho : srv.open_err = 0
    · rw [stop_and_post_accepted _ srv hen ho] at hmem
      simpa [request_head] using hmem
    · rw [stop_and_post_refused _ srv hen ho] at hmem
      simp [request_head] at hmem
  · rw [c3]
    show to_u32 (u0.start.writes ws).buffer_.length = _
    rw [hlen, hu32]
  · rw [c3, c1]
    show to_u32 (u0.start.writes ws).buffer_.length = 44 + (u0.start.writes ws).buffer_.length - 44
    rw [hlen, hu32]
    omega

/-- Witness of `container_data_size`: the three-sample recording, posted to a server
that answers. -/
theorem container_data_size_witness :
    ∃ c : List Nat,
      ClientCall.client_open c.length
        ∈ ((demo_uploader.start.writes [([1, -2, 258], 3)]).stop_and_post demo_server).calls ∧
      (demo_server.open_err = 0 →
        ClientCall.client_write c c.length
          ∈ ((demo_uploader.start.writes [([1, -2, 258], 3)]).stop_and_post demo_server).calls) ∧
      (∀ b n, ClientCall.client_write b n
          ∈ ((demo_uploader.start.writes [([1, -2, 258], 3)]).stop_and_post demo_server).calls →
        b = c ∧ n = c.length) ∧
      c.drop 44 = (demo_uploader.start.writes [([1, -2, 258], 3)]).buffer_ ∧
      read_le (field c 40 4) = total_samples [([1, -2, 258], 3)] * 2 ∧
      read_le (field c 40 4) = c.length - 44 :=
  container_data_size demo_uploader [([1, -2, 258], 3)] demo_server (by decide) (by decide)

/-! ## The scan of the reply -/

/-- The search for a character stops at its first occurrence. -/
theorem find_char_at_skip (c : Char) (l1 l2 : List Char) (hc : c ∉ l1) :
    ∀ k, find_char_at c (l1 ++ c :: l2) k = k + l1.length := by
  induction l1 with
  | nil => intro k; simp [find_char_at]
  | cons x xs ih =>
    intro k
    have hx : x ≠ c := fun e => hc (by simp [e])
    have hxs : c ∉ xs := fun e => hc (List.mem_cons_of_mem _ e)
    rw [List.cons_append, find_char_at, if_neg hx, ih hxs, List.length_cons]
    omega

/-- The search for a character that does not occur yields `npos`. -/
theorem find_char_at_absent (c : Char) (l : List Char) (hc : c ∉ l) :
    ∀ k, find_char_at c l k = npos := by
  induction l with
  | nil => intro k; rfl
  | cons x xs ih =>
    intro k
    have hx : x ≠ c := fun e => hc (by simp [e])
    have hxs : c ∉ xs := fun e => hc (List.mem_cons_of_mem _ e)
    rw [find_char_at, if_neg hx, ih hxs]

/-- The search for a pattern stops at its first occurrence. -/
theorem find_at_first (pat t : List Char) (pre : List Char) :
    ∀ k, (∀ i, i < pre.length → ¬ pat <+: (pre ++ pat ++ t).drop i) →
      find_at pat (pre ++ pat ++ t) k = k + pre.length := by
  induction pre with
  | nil =>
    intro k _
    have hp : pat <+: pat ++ t := List.prefix_append pat t
    rw [List.nil_append]
    cases hpt : pat ++ t with
    | nil =>
      have hpat : pat = [] := (List.append_eq_nil.mp hpt).1
      simp [find_at, hpat]
    | cons c cs =>
      rw [hpt] at hp
      simp [find_at, List.isPrefixOf_iff_prefix.mpr hp]
  | cons x xs ih =>
    intro k hfirst
    have h0 : ¬ pat <+: x :: (xs ++ pat ++ t) := by
      have := hfirst 0 (by simp)
      simpa using this
    have hrest : ∀ i, i < xs.length → ¬ pat <+: (xs ++ pat ++ t).drop i := by
      intro i hi
      have := hfirst (i + 1) (by simpa using hi)
      simpa using this
    have hb : pat.isPrefixOf (x :: (xs ++ pat ++ t)) = false := by
      cases hq : pat.isPrefixOf (x :: (xs ++ pat ++ t)) with
      | false => rfl
      | true => exact absurd (List.isPrefixOf_iff_prefix.mp hq) h0
    have e : x :: xs ++ pat ++ t = x :: (xs ++ pat ++ t) := by simp
    rw [e, find_at, hb, ih (k + 1) hrest, List.length_cons]
    simp only [Bool.false_eq_true, if_false]
    omega

/-- C6: in a reply that reads `pre`, the marker `"text"` (first occurrence), `mid`
without a colon, a colon, `gap` without a quote, a quote, `val` without a quote, a
quote, `rest`, the scan returns exactly `val`, the characters strictly between the
opening quote and the next quote. The reply is a `std::string`, shorter than
`npos`. -/
theorem extract_text_between_quotes (pre mid gap val rest : List Char)
    (hfirst : ∀ i, i < pre.length →
      ¬ MARKER <+: (pre ++ MARKER ++ mid ++ [':'] ++ gap ++ ['"'] ++ val ++ ['"'] ++ rest).drop i)
    (hmid : ':' ∉ mid) (hgap : '"' ∉ gap) (hval : '"' ∉ val)
    (hsize : (pre ++ MARKER ++ mid ++ [':'] ++ gap ++ ['"'] ++ val ++ ['"'] ++ rest).length
      < npos) :
    extract_text (pre ++ MARKER ++ mid ++ [':'] ++ gap ++ ['"'] ++ val ++ ['"'] ++ rest)
      = val := by
  have hb1 : pre ++ MARKER ++ mid ++ [':'] ++ gap ++ ['"'] ++ val ++ ['"'] ++ rest
      = pre ++ MARKER ++ (mid ++ ':' :: (gap ++ '"' :: (val ++ '"' :: rest))) := by simp
  have hb2 : pre ++ MARKER ++ (mid ++ ':' :: (gap ++ '"' :: (val ++ '"' :: rest)))
      = pre ++ ((MARKER ++ mid) ++ ':' :: (gap ++ '"' :: (val ++ '"' :: rest))) := by simp
  have hb3 : pre ++ MARKER ++ (mid ++ ':' :: (gap ++ '"' :: (val ++ '"' :: rest)))
      = (pre ++ MARKER ++ mid ++ [':']) ++ (gap ++ '"' :: (val ++ '"' :: rest)) := by simp
  have hb4 : pre ++ MARKER ++ (mid ++ ':' :: (gap ++ '"' :: (val ++ '"' :: rest)))
      = (pre ++ MARKER ++ mid ++ [':'] ++ gap ++ ['"']) ++ (val ++ '"' :: rest) := by simp
  rw [hb1] at hfirst hsize ⊢
  have hlen : (pre ++ MARKER ++ (mid ++ ':' :: (gap ++ '"' :: (val ++ '"' :: rest)))).length
      = pre.length + 6 + mid.length + 1 + gap.length + 1 + val.length + 1 + rest.length := by
    simp [MARKER]
    omega
  have hcolon : ':' ∉ MARKER ++ mid := by
    intro h
    rcases List.mem_append.mp h with h | h
    · exact absurd h (by decide)
    · exact hmid h
  -- the four positions
  have p1 : string_find (pre ++ MARKER ++ (mid ++ ':' :: (gap ++ '"' :: (val ++ '"' :: rest))))
      MARKER 0 = pre.length := by
    rw [string_find, if_neg (by omega), List.drop_zero, find_at_first MARKER _ pre 0 hfirst]
    omega
  have p2 : find_first_of (pre ++ MARKER ++ (mid ++ ':' :: (gap ++ '"' :: (val ++ '"' :: rest))))
      ':' pre.length = pre.length + 6 + mid.length := by
    rw [find_first_of, hb2, List.drop_left, find_char_at_skip ':' _ _ hcolon]
    simp [MARKER]
    omega
  have p3 : find_first_of (pre ++ MARKER ++ (mid ++ ':' :: (gap ++ '"' :: (val ++ '"' :: rest))))
      '"' (pre.length + 6 + mid.length + 1) = pre.length + 6 + mid.length + 1 + gap.length := by
    rw [find_first_of, hb3, List.drop_left' (by simp [MARKER]; omega), find_char_at_skip '"' _ _ hgap]
  have p4 : find_first_of (pre ++ MARKER ++ (mid ++ ':' :: (gap ++ '"' :: (val ++ '"' :: rest))))
      '"' (pre.length + 6 + mid.length + 1 + gap.length + 1)
      = pre.length + 6 + mid.length + 1 + gap.length + 1 + val.length := by
    rw [find_first_of, hb4, List.drop_left' (by simp [MARKER]; omega), find_char_at_skip '"' _ _ hval]
  have p5 : substr (pre ++ MARKER ++ (mid ++ ':' :: (gap ++ '"' :: (val ++ '"' :: rest))))
      (pre.length + 6 + mid.length + 1 + gap.length + 1) val.length = val := by
    rw [substr, hb4, List.drop_left' (by simp [MARKER]; omega), List.take_left]
  unfold npos at hsize
  have m1 : (pre.length + 6 + mid.length + 1) % SIZE_MOD = pre.length + 6 + mid.length + 1 := by
    unfold SIZE_MOD
    omega
  have m2 : (pre.length + 6 + mid.length + 1 + gap.length + 1) % SIZE_MOD
      = pre.length + 6 + mid.length + 1 + gap.length + 1 := by
    unfold SIZE_MOD
    omega
  have m3 : size_sub (size_sub (pre.length + 6 + mid.length + 1 + gap.length + 1 + val.length)
      (pre.length + 6 + mid.length + 1 + gap.length)) 1 = val.length := by
    unfold size_sub SIZE_MOD
    omega
  have c1 : pre.length ≠ npos := by unfold npos; omega
  have c2 : pre.length + 6 + mid.length + 1 + gap.length ≠ npos := by unfold npos; omega
  have c3 : pre.length + 6 + mid.length + 1 + gap.length + 1 + val.length ≠ npos := by
    unfold npos
    omega
  unfold extract_text
  simp only [p1, p2, m1, p3, m2, p4, m3, p5]
  rw [if_pos ⟨c1, c2, c3⟩]

/-- Witness of `extract_text_between_quotes`: the reply `{"text":"hello"}` yields
`hello`. -/
theorem extract_text_between_quotes_witness :
    extract_text ("\x7b".toList ++ MARKER ++ [] ++ [':'] ++ [] ++ ['"'] ++ "hello".toList ++
      ['"'] ++ "\x7d".toList) = "hello".toList :=
  extract_text_between_quotes "\x7b".toList [] [] "hello".toList "\x7d".toList
    (by decide) (by decide) (by decide) (by decide) (by decide)

/-- The search for a pattern that occurs nowhere yields `npos`. -/
theorem find_at_absent (pat : List Char) (s : List Char) :
    ∀ k, (∀ i, ¬ pat <+: s.drop i) → find_at pat s k = npos := by
  induction s with
  | nil =>
    intro k h
    have hp : pat ≠ [] := by
      intro e
      exact h 0 (by simp [e])
    simp [find_at, hp]
  | cons c cs ih =>
    intro k h
    have h0 : ¬ pat <+: c :: cs := by simpa using h 0
    have hb : pat.isPrefixOf (c :: cs) = false := by
      cases hq : pat.isPrefixOf (c :: cs) with
      | false => rfl
      | true => exact absurd (List.isPrefixOf_iff_prefix.mp hq) h0
    have hrest : ∀ i, ¬ pat <+: cs.drop i := by
      intro i
      simpa using h (i + 1)
    rw [find_at, hb, ih (k + 1) hrest]
    simp

/-- Positions of the marker and of the colon in a reply that has both. -/
theorem scan_marker_colon (pre mid t : List Char)
    (hfirst : ∀ i, i < pre.length → ¬ MARKER <+: (pre ++ MARKER ++ mid ++ ':' :: t).drop i)
    (hmid : ':' ∉ mid) :
    string_find (pre ++ MARKER ++ mid ++ ':' :: t) MARKER 0 = pre.length ∧
    find_first_of (pre ++ MARKER ++ mid ++ ':' :: t) ':' pre.length
      = pre.length + 6 + mid.length := by
  have hb1 : pre ++ MARKER ++ mid ++ ':' :: t = pre ++ MARKER ++ (mid ++ ':' :: t) := by simp
  have hb2 : pre ++ MARKER ++ (mid ++ ':' :: t) = pre ++ ((MARKER ++ mid) ++ ':' :: t) := by
    simp
  have hcolon : ':' ∉ MARKER ++ mid := by
    intro h
    rcases List.mem_append.mp h with h | h
    · exact absurd h (by decide)
    · exact hmid h
  rw [hb1] at hfirst ⊢
  constructor
  · rw [string_find, if_neg (by omega), List.drop_zero, find_at_first MARKER _ pre 0 hfirst]
    omega
  · rw [find_first_of, hb2, List.drop_left, find_char_at_skip ':' _ _ hcolon]
    simp [MARKER]
    omega

/-- The cases in which the scan does fall back to the sentinel: no marker anywhere; a
marker and a colon with no quote after the colon; an opening quote with no quote
after it. The replies `{"foo":1}` and `{"text":}` are instances. -/
theorem extract_text_sentinel_cases :
    (∀ body : List Char, (∀ i, ¬ MARKER <+: body.drop i) → extract_text body = ERROR_TEXT) ∧
    (∀ pre mid t : List Char,
      (∀ i, i < pre.length → ¬ MARKER <+: (pre ++ MARKER ++ mid ++ ':' :: t).drop i) →
      ':' ∉ mid → '"' ∉ t → (pre ++ MARKER ++ mid ++ ':' :: t).length < npos →
      extract_text (pre ++ MARKER ++ mid ++ ':' :: t) = ERROR_TEXT) ∧
    (∀ pre mid gap t : List Char,
      (∀ i, i < pre.length →
        ¬ MARKER <+: (pre ++ MARKER ++ mid ++ ':' :: (gap ++ '"' :: t)).drop i) →
      ':' ∉ mid → '"' ∉ gap → '"' ∉ t →
      (pre ++ MARKER ++ mid ++ ':' :: (gap ++ '"' :: t)).length < npos →
      extract_text (pre ++ MARKER ++ mid ++ ':' :: (gap ++ '"' :: t)) = ERROR_TEXT) ∧
    extract_text "\x7b\"foo\":1\x7d".toList = ERROR_TEXT ∧
    extract_text "\x7b\"text\":\x7d".toList = ERROR_TEXT := by
  refine ⟨?_, ?_, ?_, by decide, by decide⟩
  · intro body habs
    have p1 : string_find body MARKER 0 = npos := by
      rw [string_find, if_neg (by omega), List.drop_zero, find_at_absent MARKER body 0 habs]
    unfold extract_text
    simp only [p1]
    rw [if_neg (fun h => h.1 rfl)]
  · intro pre mid t hfirst hmid ht hsize
    obtain ⟨p1, p2⟩ := scan_marker_colon pre mid t hfirst hmid
    have hlen : (pre ++ MARKER ++ mid ++ ':' :: t).length
        = pre.length + 6 + mid.length + 1 + t.length := by
      simp [MARKER]
      omega
    unfold npos at hsize
    have m1 : (pre.length + 6 + mid.length + 1) % SIZE_MOD = pre.length + 6 + mid.length + 1 := by
      unfold SIZE_MOD
      omega
    have hb3 : pre ++ MARKER ++ mid ++ ':' :: t = (pre ++ MARKER ++ mid ++ [':']) ++ t := by simp
    have p3 : find_first_of (pre ++ MARKER ++ mid ++ ':' :: t) '"'
        (pre.length + 6 + mid.length + 1) = npos := by
      rw [find_first_of, hb3, List.drop_left' (by simp [MARKER]; omega),
        find_char_at_absent '"' t ht]
    unfold extract_text
    simp only [p1, p2, m1, p3]
    rw [if_neg (fun h => h.2.1 rfl)]
  · intro pre mid gap t hfirst hmid hgap ht hsize
    obtain ⟨p1, p2⟩ := scan_marker_colon pre mid (gap ++ '"' :: t) hfirst hmid
    have hlen : (pre ++ MARKER ++ mid ++ ':' :: (gap ++ '"' :: t)).length
        = pre.length + 6 + mid.length + 1 + gap.length + 1 + t.length := by
      simp [MARKER]
      omega
    unfold npos at hsize
    have m1 : (pre.length + 6 + mid.length + 1) % SIZE_MOD = pre.length + 6 + mid.length + 1 := by
      unfold SIZE_MOD
      omega
    have m2 : (pre.length + 6 + mid.length + 1 + gap.length + 1) % SIZE_MOD
        = pre.length + 6 + mid.length + 1 + gap.length + 1 := by
      unfold SIZE_MOD
      omega
    have hb3 : pre ++ MARKER ++ mid ++ ':' :: (gap ++ '"' :: t)
        = (pre ++ MARKER ++ mid ++ [':']) ++ (gap ++ '"' :: t) := by simp
    have hb4 : pre ++ MARKER ++ mid ++ ':' :: (gap ++ '"' :: t)
        = (pre ++ MARKER ++ mid ++ [':'] ++ gap ++ ['"']) ++ t := by simp
    have p3 : find_first_of (pre ++ MARKER ++ mid ++ ':' :: (gap ++ '"' :: t)) '"'
        (pre.length + 6 + mid.length + 1) = pre.length + 6 + mid.length + 1 + gap.length := by
      rw [find_first_of, hb3, List.drop_left' (by simp [MARKER]; omega),
        find_char_at_skip '"' _ _ hgap]
    have p4 : find_first_of (pre ++ MARKER ++ mid ++ ':' :: (gap ++ '"' :: t)) '"'
        (pre.length + 6 + mid.length + 1 + gap.length + 1) = npos := by
      rw [find_first_of, hb4, List.drop_left' (by simp [MARKER]; omega),
        find_char_at_absent '"' t ht]
    unfold extract_text
    simp only [p1, p2, m1, p3, m2, p4]
    rw [if_neg (fun h => h.2.2 rfl)]

/-- C7, at the reply `{"text"}`: the marker is there and no colon follows it, yet the
scan does not return the sentinel. The search for the colon yields `npos`,
`npos + 1` wraps to 0, the two quotes found from there are those of the marker, and
the condition never looks at the colon position: the result is `text`. -/
theorem extract_text_without_colon :
    string_find "\x7b\"text\"\x7d".toList MARKER 0 = 1 ∧
    find_first_of "\x7b\"text\"\x7d".toList ':' 1 = npos ∧
    (npos + 1) % SIZE_MOD = 0 ∧
    extract_text "\x7b\"text\"\x7d".toList = "text".toList ∧
    extract_text "\x7b\"text\"\x7d".toList ≠ ERROR_TEXT := by
  decide

/-! ## From `start()` to the published transcript -/

/-- C10: after `start()` and writes that deliver `n` samples in total (each call within
its array, `2 * n` bytes fitting the 32-bit size type), with the result sensor in
place, the connection opening and the server delivering the reply body `r`,
`stop_and_post` makes exactly the calls listed: one request, method POST, declared
length `44 + 2 * n`, one body `c` of `44 + 2 * n` bytes whose data-size field is
`2 * n` and whose bytes from offset 44 are the recording. It then returns with the
sensor having received exactly one more value, `extract_text r`, with `enabled_`
false and the buffer released. -/
theorem stop_and_post_end_to_end (u0 : WhisperUploader) (t0 : TextSensor)
    (ws : List (List Int × Nat)) (srv : HttpServer) (r : List Char)
    (hsensor : u0.result_sensor_ = some t0) (harr : ∀ w ∈ ws, w.2 ≤ w.1.length)
    (hfit : 2 * total_samples ws < 2 ^ 32) (hopen : srv.open_err = 0)
    (hr : response_body srv.events = r) :
    ∃ c : List Nat,
      (u0.start.writes ws).stop_and_post srv =
        { calls :=
            [ClientCall.init u0.host_ u0.port_ u0.path_, ClientCall.set_method_post,
             ClientCall.set_header "Content-Type".toList "audio/wav".toList] ++
            (if u0.token_ = [] then []
             else [ClientCall.set_header "Authorization".toList
                    ("Bearer ".toList ++ u0.token_)]) ++
            [ClientCall.client_open (44 + 2 * total_samples ws),
             ClientCall.client_write c (44 + 2 * total_samples ws),
             ClientCall.fetch_headers, ClientCall.read_response,
             ClientCall.get_status_code, ClientCall.close, ClientCall.cleanup]
          final := some
            { u0 with
              enabled_ := false
              buffer_ := []
              result_sensor_ := some { states := t0.states ++ [extract_text r] } } } ∧
      c.length = 44 + 2 * total_samples ws ∧
      read_le (field c 40 4) = 2 * total_samples ws ∧
      c.drop 44 = (u0.start.writes ws).buffer_ := by
  obtain ⟨bytes, hb, hbl⟩ := writes_enabled ws u0.start rfl harr hfit
  have hen : (u0.start.writes ws).enabled_ = true := by rw [hb]; rfl
  have hlen : (u0.start.writes ws).buffer_.length = 2 * total_samples ws := by
    rw [hb]
    simp [WhisperUploader.start, hbl]
  obtain ⟨c1, _, c3⟩ :=
    container_size_fields ({ u0.start.writes ws with enabled_ := false } : WhisperUploader)
  obtain ⟨_, _, _, _, p5, _, _⟩ :=
    make_wav_header_prepends ({ u0.start.writes ws with enabled_ := false } : WhisperUploader)
  have hu32 : to_u32 (2 * total_samples ws) = 2 * total_samples ws := to_u32_of_lt _ (by omega)
  have hclen : ({ u0.start.writes ws with enabled_ := false } :
      WhisperUploader).make_wav_header_.buffer_.length = 44 + 2 * total_samples ws := by
    rw [c1]
    show 44 + (u0.start.writes ws).buffer_.length = _
    rw [hlen]
  refine ⟨({ u0.start.writes ws with enabled_ := false } : WhisperUploader).make_wav_header_.buffer_,
    ?_, hclen, ?_, p5⟩
  · rw [stop_and_post_accepted _ srv hen hopen, request_head_eq, hclen, deliver_eq, hr]
    rw [hb]
    simp [WhisperUploader.make_wav_header_, WhisperUploader.start, hsensor,
      TextSensor.publish_state]
  · rw [c3]
    show to_u32 (u0.start.writes ws).buffer_.length = _
    rw [hlen, hu32]

/-- Witness of `stop_and_post_end_to_end`: 1600 samples (100 ms at 16 kHz) and the
reply `{"text":"hola mundo"}`; the body has 3244 bytes, the data size is 3200 and the
published transcript is `hola mundo`. -/
theorem stop_and_post_end_to_end_witness :
    extract_text "\x7b\"text\":\"hola mundo\"\x7d".toList = "hola mundo".toList ∧
    ∃ c : List Nat,
      (demo_uploader.start.writes [(List.replicate 1600 0, 1600)]).stop_and_post demo_server =
        { calls :=
            [ClientCall.init demo_uploader.host_ demo_uploader.port_ demo_uploader.path_,
             ClientCall.set_method_post,
             ClientCall.set_header "Content-Type".toList "audio/wav".toList] ++
            (if demo_uploader.token_ = [] then []
             else [ClientCall.set_header "Authorization".toList
                    ("Bearer ".toList ++ demo_uploader.token_)]) ++
            [ClientCall.client_open (44 + 2 * total_samples [(List.replicate 1600 0, 1600)]),
             ClientCall.client_write c (44 + 2 * total_samples [(List.replicate 1600 0, 1600)]),
             ClientCall.fetch_headers, ClientCall.read_response,
             ClientCall.get_status_code, ClientCall.close, ClientCall.cleanup]
          final := some
            { demo_uploader with
              enabled_ := false
              buffer_ := []
              result_sensor_ := some
                { states := [] ++ [extract_text "\x7b\"text\":\"hola mundo\"\x7d".toList] } } } ∧
      c.length = 44 + 2 * total_samples [(List.replicate 1600 0, 1600)] ∧
      read_le (field c 40 4) = 2 * total_samples [(List.replicate 1600 0, 1600)] ∧
      c.drop 44 = (demo_uploader.start.writes [(List.replicate 1600 0, 1600)]).buffer_ :=
  ⟨by decide,
   stop_and_post_end_to_end demo_uploader { states := [] } [(List.replicate 1600 0, 1600)]
    demo_server "\x7b\"text\":\"hola mundo\"\x7d".toList rfl
    (by intro w hw; rw [List.mem_singleton.mp hw, List.length_replicate])
    (by decide) rfl (by decide)⟩

/-! ## The session as a state machine -/

/-- With `enabled_ = false` a run of `write` calls changes nothing. -/
theorem writes_disabled (ws : List (List Int × Nat)) :
    ∀ u : WhisperUploader, u.enabled_ = false → u.writes ws = u := by
  induction ws with
  | nil => intro u _; rfl
  | cons w ws ih =>
    intro u h
    have hw : u.write w.1 w.2 = u := by simp [WhisperUploader.write, h]
    rw [WhisperUploader.writes, hw, ih u h]

/-- One `write` touches the buffer only. -/
theorem write_frame (u : WhisperUploader) (samples : List Int) (n : Nat) :
    ∃ b : List Nat, u.write samples n = { u with buffer_ := b } := by
  by_cases h : u.enabled_ = true
  · exact ⟨_, write_enabled_buffer u samples n h⟩
  · have hw : u.write samples n = u := by simp [WhisperUploader.write, h]
    exact ⟨u.buffer_, by rw [hw]⟩

/-- A run of `write` calls touches the buffer only. -/
theorem writes_frame (ws : List (List Int × Nat)) :
    ∀ u : WhisperUploader, ∃ b : List Nat, u.writes ws = { u with buffer_ := b } := by
  induction ws with
  | nil => intro u; exact ⟨u.buffer_, rfl⟩
  | cons w ws ih =>
    intro u
    obtain ⟨b1, h1⟩ := write_frame u w.1 w.2
    obtain ⟨b, hb⟩ := ih (u.write w.1 w.2)
    refine ⟨b, ?_⟩
    rw [WhisperUploader.writes, hb, h1]

/-- Whatever `stop_and_post` returns is idle, and its buffer is empty when the session
was recording. -/
theorem stop_and_post_final_idle (v w : WhisperUploader) (srv : HttpServer)
    (hw : (v.stop_and_post srv).final = some w) :
    w.enabled_ = false ∧ (v.enabled_ = true → w.buffer_ = []) := by
  cases hv : v.enabled_ with
  | false =>
    rw [stop_and_post_disabled v srv hv] at hw
    simp only [Option.some.injEq] at hw
    rw [← hw]
    exact ⟨hv, fun h => absurd h (by simp)⟩
  | true =>
    by_cases ho : srv.open_err = 0
    · rw [stop_and_post_accepted v srv hv ho] at hw
      simp only [Option.some.injEq] at hw
      rw [← hw]
      exact ⟨rfl, fun _ => rfl⟩
    · rw [stop_and_post_refused v srv hv ho] at hw
      exact absurd hw (by simp)

/-- C11 does not hold as stated: when the three-sample recording is stopped against a
server that refuses the connection, `stop_and_post` does not return a component at
all, so there is no idle session with the sentinel published, and the handle is
never passed to `esp_http_client_cleanup`. -/
theorem connection_refused_aborts :
    (demo_recorded.stop_and_post refusing_server).final = none ∧
    ClientCall.close ∉ (demo_recorded.stop_and_post refusing_server).calls ∧
    ClientCall.cleanup ∉ (demo_recorded.stop_and_post refusing_server).calls ∧
    ¬ ∃ (w : WhisperUploader) (t : TextSensor),
        (demo_recorded.stop_and_post refusing_server).final = some w ∧
        w.enabled_ = false ∧ w.result_sensor_ = some t ∧ ERROR_TEXT ∈ t.states := by
  have h := stop_and_post_refused demo_recorded refusing_server (by decide) (by decide)
  rw [h, request_head_eq]
  refine ⟨rfl, by simp, by simp, ?_⟩
  rintro ⟨w, t, hw, _⟩
  exact absurd hw (by simp)

/-- C11, as the code has it: when `esp_http_client_open` fails during `stop_and_post`
on a recording session, `ESP_ERROR_CHECK` aborts the firmware. The library calls
made are the initialisation, the method, the headers and the failed open; nothing is
written, the connection is not closed, the handle is not cleaned up, and
`stop_and_post` does not return, so nothing is published and no idle session
results. -/
theorem stop_and_post_connection_refused (u : WhisperUploader) (srv : HttpServer)
    (h : u.enabled_ = true) (ho : srv.open_err ≠ 0) :
    (u.stop_and_post srv).final = none ∧
    (u.stop_and_post srv).calls =
      [ClientCall.init u.host_ u.port_ u.path_, ClientCall.set_method_post,
       ClientCall.set_header "Content-Type".toList "audio/wav".toList] ++
      (if u.token_ = [] then []
       else [ClientCall.set_header "Authorization".toList ("Bearer ".toList ++ u.token_)]) ++
      [ClientCall.client_open (44 + u.buffer_.length)] ∧
    (∀ b n, ClientCall.client_write b n ∉ (u.stop_and_post srv).calls) ∧
    ClientCall.close ∉ (u.stop_and_post srv).calls ∧
    ClientCall.cleanup ∉ (u.stop_and_post srv).calls := by
  have hlen := (container_size_fields ({ u with enabled_ := false } : WhisperUploader)).1
  have hcalls : (u.stop_and_post srv).calls =
      [ClientCall.init u.host_ u.port_ u.path_, ClientCall.set_method_post,
       ClientCall.set_header "Content-Type".toList "audio/wav".toList] ++
      (if u.token_ = [] then []
       else [ClientCall.set_header "Authorization".toList ("Bearer ".toList ++ u.token_)]) ++
      [ClientCall.client_open (44 + u.buffer_.length)] := by
    rw [stop_and_post_refused u srv h ho, request_head_eq, hlen]
    rfl
  refine ⟨by rw [stop_and_post_refused u srv h ho], hcalls, ?_, ?_, ?_⟩
  · intro b n
    rw [hcalls]
    by_cases ht : u.token_ = [] <;> simp [ht]
  · rw [hcalls]
    by_cases ht : u.token_ = [] <;> simp [ht]
  · rw [hcalls]
    by_cases ht : u.token_ = [] <;> simp [ht]

/-- Witness of `stop_and_post_connection_refused`: the freshly started session
against the refusing server. -/
theorem stop_and_post_connection_refused_witness :
    (demo_uploader.start.stop_and_post refusing_server).final = none :=
  (stop_and_post_connection_refused demo_uploader.start refusing_server (by decide)
    (by decide)).1

/-- C12: `stop_and_post` on an idle session (`enabled_ = false`) makes no library
call, so no request is sent, and returns the component unchanged, so nothing is
published and `enabled_` and the buffer stay as they were. A second `stop_and_post`
right after one that returned is such a call. -/
theorem stop_and_post_idle_noop (u : WhisperUploader) (srv : HttpServer)
    (h : u.enabled_ = false) :
    (u.stop_and_post srv).calls = [] ∧
    (u.stop_and_post srv).final = some u ∧
    (∀ (v w : WhisperUploader) (srv1 : HttpServer),
      (v.stop_and_post srv1).final = some w →
        (w.stop_and_post srv).calls = [] ∧ (w.stop_and_post srv).final = some w) := by
  refine ⟨by rw [stop_and_post_disabled u srv h], by rw [stop_and_post_disabled u srv h], ?_⟩
  intro v w srv1 hw
  have hidle := (stop_and_post_final_idle v w srv1 hw).1
  rw [stop_and_post_disabled w srv hidle]
  exact ⟨rfl, rfl⟩

/-- Witness of `stop_and_post_idle_noop`: a component that was never started. -/
theorem stop_and_post_idle_noop_witness :
    (demo_uploader.stop_and_post demo_server).calls = [] ∧
    (demo_uploader.stop_and_post demo_server).final = some demo_uploader :=
  ⟨(stop_and_post_idle_noop demo_uploader demo_server (by decide)).1,
   (stop_and_post_idle_noop demo_uploader demo_server (by decide)).2.1⟩

/-- C14: when `stop_and_post` is called on a recording session and the connection
opens, it returns a component with `enabled_ = false` and an empty buffer, and every
run of `write` calls after that leaves this component, hence the empty buffer, as it
is. Whenever `stop_and_post` returns at all from a recording session, the same
holds. -/
theorem after_stop_writes_are_dropped (u : WhisperUploader) (srv : HttpServer)
    (h : u.enabled_ = true) (ho : srv.open_err = 0) :
    (∃ w : WhisperUploader, (u.stop_and_post srv).final = some w ∧
      w.enabled_ = false ∧ w.buffer_ = [] ∧
      ∀ ws : List (List Int × Nat), w.writes ws = w ∧ (w.writes ws).buffer_ = []) ∧
    (∀ (srv2 : HttpServer) (w2 : WhisperUploader),
      (u.stop_and_post srv2).final = some w2 →
        w2.enabled_ = false ∧ w2.buffer_ = [] ∧
        ∀ ws : List (List Int × Nat), w2.writes ws = w2 ∧ (w2.writes ws).buffer_ = []) := by
  have key : ∀ (srv2 : HttpServer) (w2 : WhisperUploader),
      (u.stop_and_post srv2).final = some w2 →
        w2.enabled_ = false ∧ w2.buffer_ = [] ∧
        ∀ ws : List (List Int × Nat), w2.writes ws = w2 ∧ (w2.writes ws).buffer_ = [] := by
    intro srv2 w2 hw
    obtain ⟨hidle, hempty⟩ := stop_and_post_final_idle u w2 srv2 hw
    refine ⟨hidle, hempty h, fun ws => ?_⟩
    rw [writes_disabled ws w2 hidle]
    exact ⟨rfl, hempty h⟩
  refine ⟨?_, key⟩
  have hret := stop_and_post_accepted u srv h ho
  exact ⟨_, by rw [hret], key srv _ (by rw [hret])⟩

/-- Witness of `after_stop_writes_are_dropped`: the three-sample recording, stopped
against a server that answers. -/
theorem after_stop_writes_are_dropped_witness :
    ∃ w : WhisperUploader, (demo_recorded.stop_and_post demo_server).final = some w ∧
      w.enabled_ = false ∧ w.buffer_ = [] ∧
      ∀ ws : List (List Int × Nat), w.writes ws = w ∧ (w.writes ws).buffer_ = [] :=
  (after_stop_writes_are_dropped demo_recorded demo_server (by decide) (by decide)).1

/-- C15: from every state, idle or recording, with any buffer contents, `start()`
yields `enabled_ = true` and an empty buffer and leaves the configuration and the
sensor as they were; a second `start()` after any run of writes therefore gives the
same state as the first one, the bytes recorded in between being discarded. -/
theorem start_resets (u : WhisperUploader) :
    u.start.enabled_ = true ∧
    u.start.buffer_ = [] ∧
    u.start.sample_rate_ = u.sample_rate_ ∧
    u.start.host_ = u.host_ ∧
    u.start.port_ = u.port_ ∧
    u.start.path_ = u.path_ ∧
    u.start.token_ = u.token_ ∧
    u.start.result_sensor_ = u.result_sensor_ ∧
    (∀ ws : List (List Int × Nat), (u.start.writes ws).start = u.start) := by
  refine ⟨rfl, rfl, rfl, rfl, rfl, rfl, rfl, rfl, ?_⟩
  intro ws
  obtain ⟨b, hb⟩ := writes_frame ws u.start
  rw [hb]
  rfl

/-! ## Request headers, reply accumulation, construction -/

/-- C16: among the calls of `post_buffer_`, whatever the server does, there is always
the header `Content-Type: audio/wav`; the header `Authorization` is set, with value
`Bearer ` followed by the token, if and only if the token is not empty; and no other
header is set. -/
theorem request_headers (u : WhisperUploader) (srv : HttpServer) :
    ClientCall.set_header "Content-Type".toList "audio/wav".toList ∈ (u.post_buffer_ srv).calls ∧
    (ClientCall.set_header "Authorization".toList ("Bearer ".toList ++ u.token_)
        ∈ (u.post_buffer_ srv).calls ↔ u.token_ ≠ []) ∧
    (∀ v, ClientCall.set_header "Authorization".toList v ∈ (u.post_buffer_ srv).calls →
      v = "Bearer ".toList ++ u.token_ ∧ u.token_ ≠ []) ∧
    (∀ k v, ClientCall.set_header k v ∈ (u.post_buffer_ srv).calls →
      (k = "Content-Type".toList ∧ v = "audio/wav".toList) ∨
      (k = "Authorization".toList ∧ v = "Bearer ".toList ++ u.token_)) := by
  have hne : "Authorization".toList ≠ "Content-Type".toList := by decide
  have hset : ∀ k v, ClientCall.set_header k v ∈ (u.post_buffer_ srv).calls ↔
      (k = "Content-Type".toList ∧ v = "audio/wav".toList) ∨
      (u.token_ ≠ [] ∧ k = "Authorization".toList ∧ v = "Bearer ".toList ++ u.token_) := by
    intro k v
    by_cases ho : srv.open_err = 0
    · rw [post_buffer_accepted u srv ho, request_head_eq]
      by_cases ht : u.token_ = [] <;> simp [ht]
    · rw [post_buffer_refused u srv ho, request_head_eq]
      by_cases ht : u.token_ = [] <;> simp [ht]
  refine ⟨(hset _ _).mpr (Or.inl ⟨rfl, rfl⟩), ?_, ?_, ?_⟩
  · constructor
    · intro hmem
      rcases (hset _ _).mp hmem with ⟨hk, _⟩ | ⟨ht, _, _⟩
      · exact absurd hk hne
      · exact ht
    · intro ht
      exact (hset _ _).mpr (Or.inr ⟨ht, rfl, rfl⟩)
  · intro v hmem
    rcases (hset _ _).mp hmem with ⟨hk, _⟩ | ⟨ht, _, hv⟩
    · exact absurd hk hne
    · exact ⟨hv, ht⟩
  · intro k v hmem
    rcases (hset _ _).mp hmem with ⟨hk, hv⟩ | ⟨_, hk, hv⟩
    · exact Or.inl ⟨hk, hv⟩
    · exact Or.inr ⟨hk, hv⟩

/-- Witness of `request_headers`: with the token `secret` the header
`Authorization: Bearer secret` is set. -/
theorem request_headers_witness :
    ClientCall.set_header "Authorization".toList "Bearer secret".toList
      ∈ (({ demo_recorded with token_ := "secret".toList } : WhisperUploader).post_buffer_
          demo_server).calls :=
  (request_headers ({ demo_recorded with token_ := "secret".toList } : WhisperUploader)
    demo_server).2.1.mpr (by decide)

/-- C17: for every sequence of events handed to `http_event_handler_` with one and the
same accumulator (so `user_data` is never null), the accumulator ends up as its
initial value followed by the chunks of the `HTTP_EVENT_ON_DATA` events, in order of
arrival, each chunk once; an event of any other kind leaves the accumulator as it
was. -/
theorem handler_accumulates (events : List HttpEvent) (resp : List Char)
    (hacc : ∀ e ∈ events, e.user_data = true) :
    handle_events events resp = resp ++ data_chunks events ∧
    data_chunks events
      = (events.filter (fun e => e.event_id = HttpEventId.HTTP_EVENT_ON_DATA)).flatMap
          (fun e => e.data.take e.data_len) ∧
    (∀ (e : HttpEvent) (acc : List Char),
      e.event_id ≠ HttpEventId.HTTP_EVENT_ON_DATA → http_event_handler_ e acc = acc) := by
  refine ⟨?_, ?_, ?_⟩
  · induction events generalizing resp with
    | nil => simp [handle_events, data_chunks]
    | cons e es ih =>
      have he : e.user_data = true := hacc e (List.mem_cons_self _ _)
      have hes : ∀ x ∈ es, x.user_data = true := fun x hx => hacc x (List.mem_cons_of_mem _ hx)
      rw [handle_events, ih _ hes, data_chunks]
      by_cases hid : e.event_id = HttpEventId.HTTP_EVENT_ON_DATA
      · simp [http_event_handler_, hid, he]
      · simp [http_event_handler_, hid]
  · clear hacc
    induction events with
    | nil => rfl
    | cons e es ih =>
      rw [data_chunks, ih]
      by_cases hid : e.event_id = HttpEventId.HTTP_EVENT_ON_DATA
      · simp [hid]
      · simp [hid]
  · intro e acc hid
    simp [http_event_handler_, hid]

/-- Witness of `handler_accumulates`: a reply that arrives in two chunks with another
event in between. -/
theorem handler_accumulates_witness :
    handle_events
      [{ event_id := HttpEventId.HTTP_EVENT_ON_DATA, user_data := true,
         data := "\x7b\"text\":\"ho".toList, data_len := 11 },
       { event_id := HttpEventId.other 5, user_data := true, data := "zz".toList, data_len := 2 },
       { event_id := HttpEventId.HTTP_EVENT_ON_DATA, user_data := true,
         data := "la\"\x7d".toList, data_len := 4 }] []
      = "\x7b\"text\":\"hola\"\x7d".toList :=
  (handler_accumulates _ [] (by decide)).1

/-- C18 does not hold as stated: constructing the component with a negative sample
rate, an empty host and an empty path yields a component like any other, which
`start()` puts in the recording state and which then records. -/
theorem invalid_configuration_is_accepted :
    WhisperUploader.new (-1) [] 0 [] [] =
      { sample_rate_ := -1, host_ := [], port_ := 0, path_ := [], token_ := [],
        enabled_ := false, buffer_ := [], result_sensor_ := some { states := [] } } ∧
    (WhisperUploader.new (-1) [] 0 [] []).start.enabled_ = true ∧
    ((WhisperUploader.new (-1) [] 0 [] []).start.write [258] 1).buffer_ = [2, 1] := by
  decide

/-- C18, as the code has it: the constructor validates nothing. For every sample rate
(also zero or negative), host and path (also empty) it stores the values as given and
yields an idle component with an empty buffer and a freshly allocated sensor, which
`start()` puts in the recording state; there is no ConfigurationError. -/
theorem constructor_accepts_any_configuration (sample_rate : Int) (host : List Char)
    (port : Nat) (path tok : List Char) :
    WhisperUploader.new sample_rate host port path tok =
      { sample_rate_ := sample_rate, host_ := host, port_ := port, path_ := path,
        token_ := tok, enabled_ := false, buffer_ := [],
        result_sensor_ := some { states := [] } } ∧
    (WhisperUploader.new sample_rate host port path tok).start.enabled_ = true ∧
    (WhisperUploader.new sample_rate host port path tok).start.sample_rate_ = sample_rate ∧
    (WhisperUploader.new sample_rate host port path tok).start.host_ = host ∧
    (WhisperUploader.new sample_rate host port path tok).start.path_ = path :=
  ⟨rfl, rfl, rfl, rfl, rfl⟩

/-- C19, at a session of four seconds: the constructor reserves `70 * 1024 = 71680`
bytes, four seconds of 16 kHz 16-bit mono audio are `128000` bytes, and a recording
of the 64000 samples of such a session holds 128000 bytes, more than was
reserved. -/
theorem reserve_below_four_seconds :
    RESERVED_BYTES = 71680 ∧
    FOUR_SECONDS_BYTES = 128000 ∧
    RESERVED_BYTES < FOUR_SECONDS_BYTES ∧
    (demo_uploader.start.write (List.replicate 64000 0) 64000).buffer_.length = 128000 ∧
    RESERVED_BYTES
      < (demo_uploader.start.write (List.replicate 64000 0) 64000).buffer_.length := by
  have hlen : (demo_uploader.start.write (List.replicate 64000 0) 64000).buffer_.length
      = 128000 := by
    rw [write_enabled_buffer _ _ _ (by decide)]
    show (demo_uploader.start.buffer_
      ++ (sample_bytes (List.replicate 64000 0)).take (64000 * 2 % SIZE_MOD)).length = 128000
    rw [List.length_append, List.length_take, sample_bytes_length, List.length_replicate]
    decide
  refine ⟨by decide, by decide, by decide, hlen, ?_⟩
  rw [hlen]
  decide

/-! ## The extracted text never contains a quote -/

/-- The search for a character either fails, the character being absent, or stops at
its first occurrence. -/
theorem find_char_at_cases (c : Char) (l : List Char) :
    ∀ k, (c ∉ l ∧ find_char_at c l k = npos) ∨
      (∃ l1 l2, l = l1 ++ c :: l2 ∧ c ∉ l1 ∧ find_char_at c l k = k + l1.length) := by
  induction l with
  | nil => intro k; exact Or.inl ⟨by simp, rfl⟩
  | cons x xs ih =>
    intro k
    by_cases hx : x = c
    · refine Or.inr ⟨[], xs, by simp [hx], by simp, ?_⟩
      simp [find_char_at, hx]
    · rcases ih (k + 1) with ⟨hn, hf⟩ | ⟨l1, l2, hl, hn, hf⟩
      · refine Or.inl ⟨?_, ?_⟩
        · intro hmem
          rcases List.mem_cons.mp hmem with h | h
          · exact hx h.symm
          · exact hn h
        · rw [find_char_at, if_neg hx, hf]
      · refine Or.inr ⟨x :: l1, l2, by simp [hl], ?_, ?_⟩
        · intro hmem
          rcases List.mem_cons.mp hmem with h | h
          · exact hx h.symm
          · exact hn h
        · rw [find_char_at, if_neg hx, hf, List.length_cons]
          omega

/-- The two quote searches, started anywhere: one of them fails, or the reply splits
around two quotes with no quote between them and the substring taken is what lies
between. -/
theorem quote_scan (body : List Char) (p : Nat) (hsize : body.length < npos) :
    find_first_of body '"' p = npos ∨
    find_first_of body '"' ((find_first_of body '"' p + 1) % SIZE_MOD) = npos ∨
    ∃ a m b, body = a ++ '"' :: (m ++ '"' :: b) ∧ '"' ∉ m ∧
      substr body ((find_first_of body '"' p + 1) % SIZE_MOD)
        (size_sub (size_sub (find_first_of body '"' ((find_first_of body '"' p + 1) % SIZE_MOD))
          (find_first_of body '"' p)) 1) = m := by
  unfold npos at hsize
  rcases find_char_at_cases '"' (body.drop p) p with ⟨_, h1⟩ | ⟨l1, l2, hd, _, h1⟩
  · exact Or.inl h1
  · have hp : p ≤ body.length := by
      by_contra hlt
      rw [List.drop_of_length_le (by omega)] at hd
      simp at hd
    have hbody : body = (body.take p ++ l1) ++ '"' :: l2 := by
      rw [List.append_assoc, ← hd, List.take_append_drop]
    have halen : (body.take p ++ l1).length = p + l1.length := by
      rw [List.length_append, List.length_take]
      omega
    have hblen : body.length = p + l1.length + 1 + l2.length := by
      rw [congrArg List.length hbody, List.length_append, halen, List.length_cons]
      omega
    have q1 : find_first_of body '"' p = p + l1.length := h1
    have m1 : (p + l1.length + 1) % SIZE_MOD = p + l1.length + 1 := by
      unfold SIZE_MOD
      omega
    have hdrop : body.drop (p + l1.length + 1) = l2 := by
      have e : body = (body.take p ++ l1 ++ ['"']) ++ l2 := by
        rw [List.append_assoc (body.take p ++ l1)]
        exact hbody
      rw [e]
      exact List.drop_left' (by rw [List.length_append, halen]; rfl)
    rw [q1, m1]
    rcases find_char_at_cases '"' l2 (p + l1.length + 1) with ⟨_, h2⟩ | ⟨m, b, hl2, hm, h2⟩
    · refine Or.inr (Or.inl ?_)
      rw [find_first_of, hdrop, h2]
    · refine Or.inr (Or.inr ⟨body.take p ++ l1, m, b, ?_, hm, ?_⟩)
      · rw [← hl2]
        exact hbody
      · have q2 : find_first_of body '"' (p + l1.length + 1) = p + l1.length + 1 + m.length := by
          rw [find_first_of, hdrop, h2]
        have hl2len : l2.length = m.length + 1 + b.length := by
          rw [hl2, List.length_append, List.length_cons]
          omega
        have m3 : size_sub (size_sub (p + l1.length + 1 + m.length) (p + l1.length)) 1
            = m.length := by
          unfold size_sub SIZE_MOD
          omega
        rw [q2, m3, substr, hdrop, hl2, List.take_left]

/-- C20: for every reply (a `std::string`, shorter than `npos`), the text produced by
the scan contains no double quote: it is the sentinel, or it is a contiguous piece of
the reply that stands between two quote characters and has no quote inside, so that
a quote escaped inside the value ends the text there. -/
theorem extract_text_has_no_quote (body : List Char) (hsize : body.length < npos) :
    '"' ∉ extract_text body ∧
    (extract_text body = ERROR_TEXT ∨
      ∃ a b, body = a ++ '"' :: (extract_text body ++ '"' :: b)) := by
  have hscan := quote_scan body
    ((find_first_of body ':' (string_find body MARKER 0) + 1) % SIZE_MOD) hsize
  have herr : '"' ∉ ERROR_TEXT := by decide
  unfold extract_text
  dsimp only
  generalize find_first_of body '"'
    ((find_first_of body ':' (string_find body MARKER 0) + 1) % SIZE_MOD) = quote1 at hscan ⊢
  generalize find_first_of body '"' ((quote1 + 1) % SIZE_MOD) = quote2 at hscan ⊢
  by_cases hc : string_find body MARKER 0 ≠ npos ∧ quote1 ≠ npos ∧ quote2 ≠ npos
  · rw [if_pos hc]
    rcases hscan with h | h | ⟨a, m, b, hb, hm, hsub⟩
    · exact absurd h hc.2.1
    · exact absurd h hc.2.2
    · rw [hsub]
      exact ⟨hm, Or.inr ⟨a, b, hb⟩⟩
  · rw [if_neg hc]
    exact ⟨herr, Or.inl rfl⟩

/-- Witness of `extract_text_has_no_quote`: in the reply `{"text":"he\"llo"}` the
escaped quote ends the text, which is `he\`. -/
theorem extract_text_has_no_quote_witness :
    extract_text "\x7b\"text\":\"he\\\"llo\"\x7d".toList = "he\\".toList ∧
    '"' ∉ extract_text "\x7b\"text\":\"he\\\"llo\"\x7d".toList :=
  ⟨by decide, (extract_text_has_no_quote "\x7b\"text\":\"he\\\"llo\"\x7d".toList (by decide)).1⟩

end Whisper
